import Mathlib

/-!
Verification development for the documentdb-mcp diagnostic core
(`src/documentdb_mcp/tools/workflow.py`, `.../tools/document.py`,
`.../tools/index.py`, `.../tools/collection.py`).

Python dictionaries are modelled as ordered association lists over a
JSON-like value type `Val`; fallible Python expressions (attribute errors,
type errors, ...) are modelled with `Except String`.
-/

/-- JSON-like Python values as they appear in the diagnostic core.
`vErrObj msg` models an `ErrorResponse` dataclass instance (the value the
external collaborator wrappers return when their call raised). -/
inductive Val where
  | vNull : Val
  | vBool : Bool → Val
  | vInt : Int → Val
  | vStr : String → Val
  | vArr : List Val → Val
  | vDoc : List (String × Val) → Val
  | vErrObj : String → Val
deriving Repr

mutual

def Val.decEq : (a b : Val) → Decidable (a = b)
  | .vNull, .vNull => isTrue rfl
  | .vBool x, .vBool y =>
    if h : x = y then isTrue (by rw [h])
    else isFalse (by intro hc; injection hc; contradiction)
  | .vInt x, .vInt y =>
    if h : x = y then isTrue (by rw [h])
    else isFalse (by intro hc; injection hc; contradiction)
  | .vStr x, .vStr y =>
    if h : x = y then isTrue (by rw [h])
    else isFalse (by intro hc; injection hc; contradiction)
  | .vArr xs, .vArr ys =>
    match Val.decEqList xs ys with
    | isTrue h => isTrue (by rw [h])
    | isFalse h => isFalse (by intro hc; injection hc; contradiction)
  | .vDoc xs, .vDoc ys =>
    match Val.decEqFields xs ys with
    | isTrue h => isTrue (by rw [h])
    | isFalse h => isFalse (by intro hc; injection hc; contradiction)
  | .vErrObj x, .vErrObj y =>
    if h : x = y then isTrue (by rw [h])
    else isFalse (by intro hc; injection hc; contradiction)
  | .vNull, .vBool _ => isFalse (by intro h; exact Val.noConfusion h)
  | .vNull, .vInt _ => isFalse (by intro h; exact Val.noConfusion h)
  | .vNull, .vStr _ => isFalse (by intro h; exact Val.noConfusion h)
  | .vNull, .vArr _ => isFalse (by intro h; exact Val.noConfusion h)
  | .vNull, .vDoc _ => isFalse (by intro h; exact Val.noConfusion h)
  | .vNull, .vErrObj _ => isFalse (by intro h; exact Val.noConfusion h)
  | .vBool _, .vNull => isFalse (by intro h; exact Val.noConfusion h)
  | .vBool _, .vInt _ => isFalse (by intro h; exact Val.noConfusion h)
  | .vBool _, .vStr _ => isFalse (by intro h; exact Val.noConfusion h)
  | .vBool _, .vArr _ => isFalse (by intro h; exact Val.noConfusion h)
  | .vBool _, .vDoc _ => isFalse (by intro h; exact Val.noConfusion h)
  | .vBool _, .vErrObj _ => isFalse (by intro h; exact Val.noConfusion h)
  | .vInt _, .vNull => isFalse (by intro h; exact Val.noConfusion h)
  | .vInt _, .vBool _ => isFalse (by intro h; exact Val.noConfusion h)
  | .vInt _, .vStr _ => isFalse (by intro h; exact Val.noConfusion h)
  | .vInt _, .vArr _ => isFalse (by intro h; exact Val.noConfusion h)
  | .vInt _, .vDoc _ => isFalse (by intro h; exact Val.noConfusion h)
  | .vInt _, .vErrObj _ => isFalse (by intro h; exact Val.noConfusion h)
  | .vStr _, .vNull => isFalse (by intro h; exact Val.noConfusion h)
  | .vStr _, .vBool _ => isFalse (by intro h; exact Val.noConfusion h)
  | .vStr _, .vInt _ => isFalse (by intro h; exact Val.noConfusion h)
  | .vStr _, .vArr _ => isFalse (by intro h; exact Val.noConfusion h)
  | .vStr _, .vDoc _ => isFalse (by intro h; exact Val.noConfusion h)
  | .vStr _, .vErrObj _ => isFalse (by intro h; exact Val.noConfusion h)
  | .vArr _, .vNull => isFalse (by intro h; exact Val.noConfusion h)
  | .vArr _, .vBool _ => isFalse (by intro h; exact Val.noConfusion h)
  | .vArr _, .vInt _ => isFalse (by intro h; exact Val.noConfusion h)
  | .vArr _, .vStr _ => isFalse (by intro h; exact Val.noConfusion h)
  | .vArr _, .vDoc _ => isFalse (by intro h; exact Val.noConfusion h)
  | .vArr _, .vErrObj _ => isFalse (by intro h; exact Val.noConfusion h)
  | .vDoc _, .vNull => isFalse (by intro h; exact Val.noConfusion h)
  | .vDoc _, .vBool _ => isFalse (by intro h; exact Val.noConfusion h)
  | .vDoc _, .vInt _ => isFalse (by intro h; exact Val.noConfusion h)
  | .vDoc _, .vStr _ => isFalse (by intro h; exact Val.noConfusion h)
  | .vDoc _, .vArr _ => isFalse (by intro h; exact Val.noConfusion h)
  | .vDoc _, .vErrObj _ => isFalse (by intro h; exact Val.noConfusion h)
  | .vErrObj _, .vNull => isFalse (by intro h; exact Val.noConfusion h)
  | .vErrObj _, .vBool _ => isFalse (by intro h; exact Val.noConfusion h)
  | .vErrObj _, .vInt _ => isFalse (by intro h; exact Val.noConfusion h)
  | .vErrObj _, .vStr _ => isFalse (by intro h; exact Val.noConfusion h)
  | .vErrObj _, .vArr _ => isFalse (by intro h; exact Val.noConfusion h)
  | .vErrObj _, .vDoc _ => isFalse (by intro h; exact Val.noConfusion h)

def Val.decEqList : (xs ys : List Val) → Decidable (xs = ys)
  | [], [] => isTrue rfl
  | [], _ :: _ => isFalse (by intro h; exact List.noConfusion h)
  | _ :: _, [] => isFalse (by intro h; exact List.noConfusion h)
  | x :: xs, y :: ys =>
    match Val.decEq x y, Val.decEqList xs ys with
    | isTrue h1, isTrue h2 => isTrue (by rw [h1, h2])
    | isFalse h1, _ => isFalse (by intro hc; injection hc; contradiction)
    | _, isFalse h2 => isFalse (by intro hc; injection hc; contradiction)

def Val.decEqFields : (xs ys : List (String × Val)) → Decidable (xs = ys)
  | [], [] => isTrue rfl
  | [], _ :: _ => isFalse (by intro h; exact List.noConfusion h)
  | _ :: _, [] => isFalse (by intro h; exact List.noConfusion h)
  | (k1, v1) :: xs, (k2, v2) :: ys =>
    if h0 : k1 = k2 then
      match Val.decEq v1 v2, Val.decEqFields xs ys with
      | isTrue h1, isTrue h2 => isTrue (by rw [h0, h1, h2])
      | isFalse h1, _ => isFalse (by
          intro hc
          injection hc with hp ht
          exact h1 (congrArg Prod.snd hp))
      | _, isFalse h2 => isFalse (by intro hc; injection hc; contradiction)
    else isFalse (by
      intro hc
      injection hc with hp ht
      exact h0 (congrArg Prod.fst hp))

end

instance : DecidableEq Val := Val.decEq

instance {α β : Type} [DecidableEq α] [DecidableEq β] : DecidableEq (Except α β) := fun a b =>
  match a, b with
  | .ok x, .ok y =>
    if h : x = y then isTrue (by rw [h])
    else isFalse (by intro hc; injection hc; contradiction)
  | .error x, .error y =>
    if h : x = y then isTrue (by rw [h])
    else isFalse (by intro hc; injection hc; contradiction)
  | .ok _, .error _ => isFalse (by intro h; exact Except.noConfusion h)
  | .error _, .ok _ => isFalse (by intro h; exact Except.noConfusion h)

/-- An ordered mapping (Python `dict`): insertion-ordered key/value pairs. -/
abbrev PyDict := List (String × Val)

/-- `d.get(key)` on a dict known to be a dict: first binding of `key`. -/
def dictGet : PyDict → String → Option Val
  | [], _ => none
  | (k, v) :: rest, key => if k = key then some v else dictGet rest key

/-- `d[key] = v`: replace the first binding of `key` in place, else append
(CPython dict update semantics). -/
def dictUpdate : PyDict → String → Val → PyDict
  | [], key, v => [(key, v)]
  | (k, w) :: rest, key, v =>
    if k = key then (k, v) :: rest else (k, w) :: dictUpdate rest key v

/-- `{**a, **b}` / a sequence of `a[k] = v` assignments for the items of `b`. -/
def dictMerge (a b : PyDict) : PyDict :=
  b.foldl (fun acc kv => dictUpdate acc kv.1 kv.2) a

/-- Python truthiness of a `Val`. -/
def pyTruthy : Val → Bool
  | .vNull => false
  | .vBool b => b
  | .vInt n => n != 0
  | .vStr s => s != ""
  | .vArr xs => !xs.isEmpty
  | .vDoc fs => !fs.isEmpty
  | .vErrObj _ => true

/-- `isinstance(v, list)`. -/
def isArrValue : Val → Bool
  | .vArr _ => true
  | _ => false

/-- Python `v == 0` (also true for `False`, which equals `0` in Python). -/
def pyIsZero : Val → Bool
  | .vInt n => n == 0
  | .vBool b => !b
  | _ => false

/-- Total `v.get(key, default)` for a value already known to be a dict;
yields the default on any non-dict. Used to state properties. -/
def tGetD (v : Val) (key : String) (dflt : Val) : Val :=
  match v with
  | .vDoc fs => (dictGet fs key).getD dflt
  | _ => dflt

/-- Key list of a value, empty for non-dicts. Used to state properties. -/
def tKeys (v : Val) : List String :=
  match v with
  | .vDoc fs => fs.map Prod.fst
  | _ => []

/-- Item list of a value, empty for non-dicts. Used to state properties. -/
def tItems (v : Val) : PyDict :=
  match v with
  | .vDoc fs => fs
  | _ => []

/-- `v.get(key, default)`: `AttributeError` on a non-dict receiver. -/
def pyGetD (v : Val) (key : String) (dflt : Val) : Except String Val :=
  match v with
  | .vDoc fs => .ok ((dictGet fs key).getD dflt)
  | _ => .error "AttributeError: object has no attribute get"

/-- `v.items()`: `AttributeError` on a non-dict receiver. -/
def pyItems (v : Val) : Except String PyDict :=
  match v with
  | .vDoc fs => .ok fs
  | _ => .error "AttributeError: object has no attribute items"

/-- `v.keys()`: `AttributeError` on a non-dict receiver. -/
def pyKeys (v : Val) : Except String (List String) :=
  match v with
  | .vDoc fs => .ok (fs.map Prod.fst)
  | _ => .error "AttributeError: object has no attribute keys"

/-- Python `key in v` for a string `key`: key membership for dicts, element
membership for lists, substring test for strings; `TypeError` otherwise
(in particular on an `ErrorResponse` dataclass instance). -/
def pyContains (v : Val) (key : String) : Except String Bool :=
  match v with
  | .vDoc fs => .ok (dictGet fs key).isSome
  | .vArr xs => .ok (xs.contains (Val.vStr key))
  | .vStr s => .ok ((s.splitOn key).length > 1)
  | _ => .error "TypeError: argument is not iterable"

/-- Python `v[key]` for a string `key`: dict indexing (`KeyError` when
absent), `TypeError` on lists/strings/other values. -/
def pyIndex (v : Val) (key : String) : Except String Val :=
  match v with
  | .vDoc fs =>
    match dictGet fs key with
    | some w => .ok w
    | none => .error "KeyError"
  | _ => .error "TypeError: indices must be integers"

/-! ## QueryShapeNormalizer (`workflow.normalize_query_shape`, lines 27-48) -/

/-- The recognized range/set operators checked by `normalize_query_shape`. -/
def rangeOps : List String := ["$gt", "$gte", "$lt", "$lte", "$in", "$nin", "$regex"]

/-- `isinstance(v, dict) and any(op in v for op in rangeOps)`. -/
def isRangeValue : Val → Bool
  | .vDoc sub => rangeOps.any (fun op => (dictGet sub op).isSome)
  | _ => false

/-- The field-classification loop of `normalize_query_shape`: walk the items
in declaration order, appending each key to the equality or the range
bucket. -/
def classifyFields : PyDict → List String × List String
  | [] => ([], [])
  | (k, v) :: rest =>
    let p := classifyFields rest
    if isRangeValue v then (p.1, k :: p.2) else (k :: p.1, p.2)

/-- Result value object of `normalize_query_shape`. -/
structure QueryShape where
  shapeKey : String
  eqFields : List String
  rangeFields : List String
deriving DecidableEq, Repr

/-- `normalize_query_shape` on a mapping. -/
def normalizeQueryShape (query : PyDict) : QueryShape :=
  let p := classifyFields query
  { shapeKey := "EQ[" ++ String.intercalate "," p.1 ++ "]|RANGE[" ++ String.intercalate "," p.2 ++ "]"
    eqFields := p.1
    rangeFields := p.2 }

/-- `normalize_query_shape` on an arbitrary value: `query.items()` raises
`AttributeError` unless the value is a mapping. -/
def normalizeVal (query : Val) : Except String QueryShape :=
  match query with
  | .vDoc fs => .ok (normalizeQueryShape fs)
  | _ => .error "AttributeError: object has no attribute items"

/-- `workflow.query_shape` (lines 50-60): unwrap a top-level `filter` key,
normalize, and turn any exception into an error result. -/
def queryShapeFn (query : Val) : Except String QueryShape :=
  match query with
  | .vDoc fs => normalizeVal ((dictGet fs "filter").getD (Val.vDoc fs))
  | _ => .error "AttributeError: object has no attribute get"

/-! ## Sort detection (`workflow.analyze_explain_metrics.search_for_sort`, lines 71-86)

The Python function is plain recursion on the object graph; each recursive
call consumes one interpreter stack frame.  `fuel` models that stack budget:
`none` means the recursion did not complete within `fuel` nested calls. -/

/-- The child links followed by `search_for_sort`, in source order. -/
def sortChildKeys : List String :=
  ["inputStage", "inputStages", "shards", "innerStage", "outerStage"]

/-- `for s in substage: if search_for_sort(s): return True` over a list,
with error and fuel-exhaustion propagation. -/
def orLoop {α : Type} (g : α → Option (Except String Bool)) : List α → Option (Except String Bool)
  | [] => some (.ok false)
  | x :: xs =>
    match g x with
    | some (.ok false) => orLoop g xs
    | r => r

/-- The `for key in [...]` loop of `search_for_sort`: a dict-valued child is
recursed into, a list-valued child is scanned element-wise, anything else is
skipped. -/
def childLoop (g : Val → Option (Except String Bool)) (fs : PyDict) : List String → Option (Except String Bool)
  | [] => some (.ok false)
  | k :: ks =>
    match dictGet fs k with
    | some (.vDoc d) =>
      match g (.vDoc d) with
      | some (.ok false) => childLoop g fs ks
      | r => r
    | some (.vArr xs) =>
      match orLoop g xs with
      | some (.ok false) => childLoop g fs ks
      | r => r
    | _ => childLoop g fs ks

/-- `search_for_sort(stage_dict)` with an explicit stack budget.  A falsy
argument yields `False`; a truthy non-dict raises `AttributeError` on
`.get`; a dict is tested for `stage == "SORT"` and then its child links are
searched. -/
def searchForSortF : Nat → Val → Option (Except String Bool)
  | 0, _ => none
  | fuel + 1, v =>
    if !pyTruthy v then some (.ok false)
    else
      match v with
      | .vDoc fs =>
        if dictGet fs "stage" = some (Val.vStr "SORT") then some (.ok true)
        else childLoop (fun w => searchForSortF fuel w) fs sortChildKeys
      | _ => some (.error "AttributeError: object has no attribute get")

mutual

/-- Executable size of a value, the stack-budget bound used for traversals. -/
def valSize : Val → Nat
  | .vArr xs => 1 + valSizeList xs
  | .vDoc fs => 1 + valSizeFields fs
  | _ => 1

def valSizeList : List Val → Nat
  | [] => 1
  | x :: xs => 1 + valSize x + valSizeList xs

def valSizeFields : List (String × Val) → Nat
  | [] => 1
  | (_, v) :: fs => 1 + valSize v + valSizeFields fs

end

/-- `search_for_sort(wp)` run with an adequate stack budget (used by the
analyzer); by `searchForSortF_isSome` the budget `valSize wp` never runs
out on tree-shaped input. -/
def runSearchForSort (v : Val) : Except String Bool :=
  match searchForSortF (valSize v) v with
  | some r => r
  | none => .error "RecursionError"

/-- A node whose `stage` is `"SORT"` is reachable from `v` by depth-first
traversal of the child links (`inputStage`, `inputStages`, `shards`,
`innerStage`, `outerStage`), descending through both single-valued and
sequence-valued links. -/
inductive HasSortNode : Val → Prop where
  | here {fs : PyDict} :
      dictGet fs "stage" = some (Val.vStr "SORT") → HasSortNode (.vDoc fs)
  | childDoc {fs : PyDict} {d : PyDict} {k : String} :
      k ∈ sortChildKeys → dictGet fs k = some (.vDoc d) →
      HasSortNode (.vDoc d) → HasSortNode (.vDoc fs)
  | childArr {fs : PyDict} {xs : List Val} {x : Val} {k : String} :
      k ∈ sortChildKeys → dictGet fs k = some (.vArr xs) →
      x ∈ xs → HasSortNode x → HasSortNode (.vDoc fs)

/-! ## ExplainPlanAnalyzer (`workflow.analyze_explain_metrics`, lines 62-173)

Python's float division of the integer counters is modelled exactly in `ℚ`;
`RatioVal.inf` is `float("inf")`. -/

/-- A health-metric ratio: a finite rational or positive infinity. -/
inductive RatioVal where
  | fin : ℚ → RatioVal
  | inf : RatioVal
deriving DecidableEq, Repr

/-- Numeric coercion used by Python's `/` (ints and bools divide; anything
else raises `TypeError`). -/
def pyNum : Val → Except String ℚ
  | .vInt n => .ok (n : ℚ)
  | .vBool b => .ok (if b then 1 else 0)
  | _ => .error "TypeError: unsupported operand type for division"

/-- `a / b if b else float("inf")` — the guard is Python truthiness of `b`,
so the division only runs on truthy (hence nonzero) `b`. -/
def pyRatio (a b : Val) : Except String RatioVal :=
  if pyTruthy b then do
    let x ← pyNum a
    let y ← pyNum b
    .ok (.fin (x / y))
  else .ok .inf

/-- The `covered` computation (workflow.py lines 108-114 and 152-158):
`covered = False` unless the projection and `winningPlan.get("inputStage")`
are truthy; then the truthy-flagged projection fields, plus `"_id"` when it
is present in the projection with a value `!= 0`, are tested for inclusion
in `set(winningPlan["inputStage"].get("keyPattern", {}).keys())`. -/
def computeCovered (projection wp : Val) : Except String Bool := do
  let inputStageProbe ← pyGetD wp "inputStage" Val.vNull
  if pyTruthy projection && pyTruthy inputStageProbe then do
    let inputStage ← pyGetD wp "inputStage" (Val.vDoc [])
    let kp ← pyGetD inputStage "keyPattern" (Val.vDoc [])
    let indexKeys ← pyKeys kp
    let projFs ← pyItems projection
    let projFields := (projFs.filter (fun kv => pyTruthy kv.2)).map Prod.fst
    let projFields :=
      match dictGet projFs "_id" with
      | some v => if pyIsZero v then projFields else projFields ++ ["_id"]
      | none => projFields
    .ok (projFields.all (fun f => indexKeys.contains f))
  else
    .ok false

/-- One `StageMetrics` record as appended to `results`: all eight keys of
the Python `healthMetrics`-carrying dict are present. -/
structure StageMetrics where
  stage : Val
  nReturned : Val
  totalDocsExamined : Val
  totalKeysExamined : Val
  amplificationRatio : RatioVal
  keyDocRatio : RatioVal
  triggersSort : Bool
  covered : Bool
deriving DecidableEq, Repr

/-- The per-stage metric computation shared verbatim by the simple branch
(lines 96-127) and the staged branch (lines 141-171): counter extraction
with default 0, the two ratios, `covered`, and `search_for_sort`, evaluated
in source order. -/
def stageHealth (projection wp es stageType : Val) : Except String StageMetrics := do
  let n ← pyGetD es "nReturned" (Val.vInt 0)
  let d ← pyGetD es "totalDocsExamined" (Val.vInt 0)
  let k ← pyGetD es "totalKeysExamined" (Val.vInt 0)
  let amp ← pyRatio d n
  let kdr ← pyRatio k d
  let cov ← computeCovered projection wp
  let ts ← runSearchForSort wp
  .ok { stage := stageType, nReturned := n, totalDocsExamined := d,
        totalKeysExamined := k, amplificationRatio := amp, keyDocRatio := kdr,
        triggersSort := ts, covered := cov }

/-- Python `name.strip("$")`: strip leading and trailing `$` characters. -/
def stripDollar (s : String) : String :=
  String.mk (((s.data.dropWhile (fun c => c = '$')).reverse.dropWhile (fun c => c = '$')).reverse)

/-- One iteration of the staged-shape loop (lines 131-171): take the first
item of the singleton stage wrapper (`StopIteration` when empty,
`AttributeError` on a non-dict), then analyze its `queryPlanner` shape. -/
def stageStep (projection stv : Val) : Except String StageMetrics := do
  let items ← pyItems stv
  match items with
  | [] => .error "StopIteration"
  | (stageName, stageDetail) :: _ => do
    let qp ← pyGetD stageDetail "queryPlanner" (Val.vDoc [])
    let wp ← pyGetD qp "winningPlan" (Val.vDoc [])
    let es ← pyGetD stageDetail "executionStats" (Val.vDoc [])
    let st ← pyGetD wp "stage" (Val.vStr (stripDollar stageName).toUpper)
    stageHealth projection wp es st

/-- The `for stage in explain_output["stages"]` loop. -/
def stagesLoop (projection : Val) : List Val → Except String (List StageMetrics)
  | [] => .ok []
  | stv :: rest => do
    let m ← stageStep projection stv
    let ms ← stagesLoop projection rest
    .ok (m :: ms)

/-- `analyze_explain_metrics(explain_output, projection)`.  The result list
is the `stagesAnalysis` sequence; any exception escaping the Python function
is an `error`. -/
def analyzeExplainMetrics (explainOutput projection : Val) : Except String (List StageMetrics) := do
  let hasStages ← pyContains explainOutput "stages"
  if !hasStages then do
    let qp ← pyGetD explainOutput "queryPlanner" (Val.vDoc [])
    let wp ← pyGetD qp "winningPlan" (Val.vDoc [])
    let es ← pyGetD explainOutput "executionStats" (Val.vDoc [])
    let st ← pyGetD wp "stage" (Val.vStr "UNKNOWN")
    let m ← stageHealth projection wp es st
    .ok [m]
  else do
    let stages ← pyIndex explainOutput "stages"
    match stages with
    | .vArr sts => stagesLoop projection sts
    | .vDoc fs =>
      if fs.isEmpty then .ok []
      else .error "AttributeError: object has no attribute items"
    | .vStr s =>
      if s.isEmpty then .ok []
      else .error "AttributeError: object has no attribute items"
    | _ => .error "TypeError: object is not iterable"

/-! ## OptimizationAdvisor (`workflow.optimize_find_query` etc., lines 175-266) -/

/-- The diagnostic bundle dict assembled on the success path. -/
structure Bundle where
  explain : Val
  analysis : List StageMetrics
  indexes : Val
  indexes_stats : Val
  collections_stats : Val
deriving DecidableEq, Repr

/-- Return value of an advise operation: either the bundle dict or an
`ErrorResponse` produced by the surrounding `try`/`except`. -/
inductive OptResult where
  | bundle : Bundle → OptResult
  | errResp : String → OptResult
deriving DecidableEq, Repr

/-- `optimize_find_query`: the four collaborator calls are externally
supplied values (each either a payload or an `ErrorResponse` object, since
the collaborator wrappers never raise).  Only an exception inside
`analyze_explain_metrics` reaches the `except` clause; the three stats
collaborator results are embedded into the bundle as-is. -/
def optimizeFindQuery (explainOutput indexes indexesStats collectionsStats projection : Val) : OptResult :=
  match analyzeExplainMetrics explainOutput projection with
  | .error msg => .errResp msg
  | .ok analysis =>
    .bundle { explain := explainOutput, analysis := analysis, indexes := indexes,
              indexes_stats := indexesStats, collections_stats := collectionsStats }

/-- `optimize_count_query`: identical sequencing, no projection argument
(`analyze_explain_metrics` is called with its `None` default). -/
def optimizeCountQuery (explainOutput indexes indexesStats collectionsStats : Val) : OptResult :=
  optimizeFindQuery explainOutput indexes indexesStats collectionsStats Val.vNull

/-- `optimize_aggregate_query`: identical sequencing, no projection
argument. -/
def optimizeAggregateQuery (explainOutput indexes indexesStats collectionsStats : Val) : OptResult :=
  optimizeFindQuery explainOutput indexes indexesStats collectionsStats Val.vNull

/-! ## CrossCollectionJoinEngine (`document.query_on_different_collections`,
lines 389-478)

The join proper (lines 433-475), with both fetches already materialized.
CPython reference semantics that matter here: `for item in left_values`
iterates by index while `left_values.remove(item)` removes the first equal
element in place, and `item = {**item, ...}` rebinds the loop variable
without restoring it for the next right match. -/

/-- The join index (`right_index`): insertion-ordered buckets, each bucket
in right-sequence order. -/
abbrev RIndex := List (Val × List PyDict)

/-- `right_index.setdefault(key, []).append(doc)`. -/
def indexAppend : RIndex → Val → PyDict → RIndex
  | [], key, doc => [(key, [doc])]
  | (k, b) :: rest, key, doc =>
    if k = key then (k, b ++ [doc]) :: rest else (k, b) :: indexAppend rest key doc

/-- Bucket lookup (`key in right_index` / `right_index[key]`). -/
def indexLookup : RIndex → Val → Option (List PyDict)
  | [], _ => none
  | (k, b) :: rest, key => if k = key then some b else indexLookup rest key

/-- Lines 433-437: index the right documents by their foreign-field value;
documents whose `.get(foreign_field)` is `None` (missing or null field) are
skipped. -/
def buildRightIndex (foreignField : String) (rightDocs : List PyDict) : RIndex :=
  rightDocs.foldl
    (fun idx doc =>
      match dictGet doc foreignField with
      | some key => if key = Val.vNull then idx else indexAppend idx key doc
      | none => idx)
    []

/-- `{f"{right_collection}_{k}": v for k, v in r.items() if k != "_id"}`. -/
def prefFields (rightName : String) (r : PyDict) : PyDict :=
  (r.filter (fun kv => kv.1 ≠ "_id")).map (fun kv => (rightName ++ "_" ++ kv.1, kv.2))

/-- Lines 457-460: `for r in right_index[key]: item = {**item, **prefixed};
copied_values.append(item)` — the rebinding accumulates across matches. -/
def fanOutLoop (rightName : String) (item : PyDict) : List PyDict → List PyDict
  | [] => []
  | r :: rs =>
    let item2 := dictMerge item (prefFields rightName r)
    item2 :: fanOutLoop rightName item2 rs

/-- `left_values.remove(item)`: delete the first element equal to `item`. -/
def pyRemoveFirst : List Val → Val → List Val
  | [], _ => []
  | y :: ys, x => if y = x then ys else y :: pyRemoveFirst ys x

/-- Lines 451-460, the `for item in left_values` loop, modelled at CPython
fidelity: an explicit cursor `i` that always advances while `remove`
shortens the list in place, so the element after a removed one is skipped.
The first argument bounds the remaining iterations; since the cursor
advances on every step and the list never grows, `vals.length - i` such
steps always suffice (`nestedLoopF_fuel_irrelevant` below), so the
fuel-exhausted arm is unreachable from `nestedLoop`.
Returns the final list state and the collected `copied_values`. -/
def nestedLoopF (rightName queryField : String) (idx : RIndex) :
    Nat → Nat → List Val → List PyDict → List Val × List PyDict
  | 0, _, vals, copied => (vals, copied)
  | fuel + 1, i, vals, copied =>
    if h : i < vals.length then
      match vals.get ⟨i, h⟩ with
      | Val.vDoc item =>
        match indexLookup idx ((dictGet item queryField).getD Val.vNull) with
        | some bucket =>
          nestedLoopF rightName queryField idx fuel (i + 1) vals
            (copied ++ fanOutLoop rightName item bucket)
        | none =>
          nestedLoopF rightName queryField idx fuel (i + 1)
            (pyRemoveFirst vals (Val.vDoc item)) copied
      | _ => nestedLoopF rightName queryField idx fuel (i + 1) vals copied
    else (vals, copied)

/-- The nested-array loop started at cursor 0. -/
def nestedLoop (rightName queryField : String) (idx : RIndex)
    (vals : List Val) : List Val × List PyDict :=
  nestedLoopF rightName queryField idx vals.length 0 vals []

/-- Lines 465-471, the scalar branch: merge each bucket document's prefixed
fields onto the left document, in bucket order (later matches overwrite). -/
def scalarMerge (rightName : String) (left : PyDict) (bucket : List PyDict) : PyDict :=
  bucket.foldl (fun acc r => dictMerge acc (prefFields rightName r)) left

/-- Lines 464-473: look up the full dotted path's value; merge only when the
value is non-null and has a bucket; the document is kept either way. -/
def scalarResult (rightName localField : String) (idx : RIndex) (left : PyDict) : PyDict :=
  match dictGet left localField with
  | some key =>
    if key = Val.vNull then left
    else
      match indexLookup idx key with
      | some bucket => scalarMerge rightName left bucket
      | none => left
  | none => left

/-- Lines 443-473, one left document: returns the document's final state
(the join mutates left documents in place) and its contribution to
`results` (`none` when it is dropped). -/
def leftFinal (rightName parentPath queryField localField : String) (idx : RIndex)
    (left : PyDict) : PyDict × Option PyDict :=
  match dictGet left parentPath with
  | some (Val.vArr vals) =>
    let p := nestedLoop rightName queryField idx vals
    if p.2.length > 0 then
      let l2 := dictUpdate left parentPath (Val.vArr (p.2.map Val.vDoc))
      (l2, some l2)
    else
      (dictUpdate left parentPath (Val.vArr p.1), none)
  | _ =>
    let l2 := scalarResult rightName localField idx left
    (l2, some l2)

/-- `s.split(".")` over the character list (Python splits on every
occurrence; the empty string yields `[""]`). -/
def splitCharAux : List Char → List (List Char)
  | [] => [[]]
  | c :: cs =>
    let rest := splitCharAux cs
    if c = '.' then [] :: rest
    else
      match rest with
      | cur :: tail => (c :: cur) :: tail
      | [] => [[c]]

/-- `local_field.split(".")`. -/
def splitOnDot (s : String) : List String :=
  (splitCharAux s.data).map String.mk

/-- `".".join(local_field.split(".")[:-1])`. -/
def parentPathOf (localField : String) : String :=
  String.intercalate "." ((splitOnDot localField).dropLast)

/-- `local_field.split(".")[-1]`. -/
def queryFieldOf (localField : String) : String :=
  ((splitOnDot localField).getLastD "")

/-- The join over already-fetched document sequences (lines 433-475):
result documents in left-sequence order. -/
def queryOnDifferentCollections (rightName localField foreignField : String)
    (leftDocs rightDocs : List PyDict) : List PyDict :=
  let idx := buildRightIndex foreignField rightDocs
  leftDocs.filterMap
    (fun left =>
      (leftFinal rightName (parentPathOf localField) (queryFieldOf localField)
        localField idx left).2)

/-! ### Reference-level view of the join

Python documents are heap objects; `left_docs` and `right_docs` are two
disjoint groups of them (two separate fetches).  The store lists every
document; the join index holds references (addresses) into it, exactly like
`right_index` holds references to the right dicts.  Every mutation the
Python loop body performs targets the left document currently being
processed, modelled as one `store.set` at its address per iteration. -/

/-- Address-valued join index (buckets of references). -/
abbrev RIndexA := List (Val × List Nat)

def indexAppendA : RIndexA → Val → Nat → RIndexA
  | [], key, a => [(key, [a])]
  | (k, b) :: rest, key, a =>
    if k = key then (k, b ++ [a]) :: rest else (k, b) :: indexAppendA rest key a

/-- Lines 433-437 over references into the store. -/
def buildRightIndexA (foreignField : String) (store : List PyDict)
    (rightAddrs : List Nat) : RIndexA :=
  rightAddrs.foldl
    (fun idx a =>
      match dictGet (store.getD a []) foreignField with
      | some key => if key = Val.vNull then idx else indexAppendA idx key a
      | none => idx)
    []

/-- Dereference every bucket at access time (bucket entries are references,
so reads always see the current store). -/
def materializeIndex (store : List PyDict) (idxA : RIndexA) : RIndex :=
  idxA.map (fun p => (p.1, p.2.map (fun a => store.getD a [])))

/-- The `for left in left_docs` loop over addresses: process the document at
each address, write its final state back, and record the address in
`results` when it was appended. -/
def joinStoreLoop (rightName parentPath queryField localField : String)
    (idxA : RIndexA) :
    List Nat → List PyDict → List Nat → List PyDict × List Nat
  | [], store, res => (store, res)
  | a :: rest, store, res =>
    let p := leftFinal rightName parentPath queryField localField
      (materializeIndex store idxA) (store.getD a [])
    let store2 := store.set a p.1
    joinStoreLoop rightName parentPath queryField localField idxA rest store2
      (res ++ (match p.2 with | some _ => [a] | none => []))

/-- Result of the reference-level join: the produced document sequence and
the final state of the right-side documents. -/
structure JoinStoreResult where
  documents : List PyDict
  rightsAfter : List PyDict
deriving DecidableEq, Repr

/-- `query_on_different_collections` at reference level: left documents live
at addresses `0..(nl-1)`, right documents at `nl..(nl+nr-1)`. -/
def queryJoinStore (rightName localField foreignField : String)
    (leftDocs rightDocs : List PyDict) : JoinStoreResult :=
  let store := leftDocs ++ rightDocs
  let rightAddrs := List.range' leftDocs.length rightDocs.length
  let idxA := buildRightIndexA foreignField store rightAddrs
  let p := joinStoreLoop rightName (parentPathOf localField)
    (queryFieldOf localField) localField idxA
    (List.range leftDocs.length) store []
  { documents := p.2.map (fun a => p.1.getD a [])
    rightsAfter := p.1.drop leftDocs.length }

/-! ### Object-graph view of the plan-tree traversal

`search_for_sort` walks Python dict objects, which are references into a
heap and may form cycles (`d["inputStage"] = d` is a legal explain-payload
forgery).  `GVal`/`GStore` model exactly that: every dict is an address. -/

inductive GVal where
  | gNull : GVal
  | gStr : String → GVal
  | gRef : Nat → GVal
  | gArr : List GVal → GVal
deriving Repr

/-- Node payloads and the heap. -/
abbrev GNode := List (String × GVal)
abbrev GStore := List GNode

def gDictGet : GNode → String → Option GVal
  | [], _ => none
  | (k, v) :: rest, key => if k = key then some v else gDictGet rest key

/-- Truthiness through a reference: a dict is falsy iff empty. -/
def gTruthy (store : GStore) : GVal → Bool
  | .gNull => false
  | .gStr s => s != ""
  | .gArr xs => !xs.isEmpty
  | .gRef a => !(store.getD a []).isEmpty

/-- The child-link loop of `search_for_sort` over graph nodes. -/
def gChildLoop (g : GVal → Option (Except String Bool)) (fs : GNode) :
    List String → Option (Except String Bool)
  | [] => some (.ok false)
  | k :: ks =>
    match gDictGet fs k with
    | some (.gRef b) =>
      match g (.gRef b) with
      | some (.ok false) => gChildLoop g fs ks
      | r => r
    | some (.gArr xs) =>
      match orLoop g xs with
      | some (.ok false) => gChildLoop g fs ks
      | r => r
    | _ => gChildLoop g fs ks

/-- `search_for_sort` on the object graph, `fuel` counting nested interpreter
frames. `none` means the recursion has not produced a result within `fuel`
frames — on a cyclic graph this holds for every budget. -/
def searchGraph (store : GStore) : Nat → GVal → Option (Except String Bool)
  | 0, _ => none
  | fuel + 1, v =>
    if !gTruthy store v then some (.ok false)
    else
      match v with
      | .gRef a =>
        let fs := store.getD a []
        match gDictGet fs "stage" with
        | some (.gStr s) =>
          if s = "SORT" then some (.ok true)
          else gChildLoop (fun w => searchGraph store fuel w) fs sortChildKeys
        | _ => gChildLoop (fun w => searchGraph store fuel w) fs sortChildKeys
      | _ => some (.error "AttributeError: object has no attribute get")

/-- The traversal never completes on `v`, whatever the stack budget. -/
def searchGraphDiverges (store : GStore) (v : GVal) : Prop :=
  ∀ fuel : Nat, searchGraph store fuel v = none

/-- A one-node cyclic winning plan: `d = {}; d["inputStage"] = d`. -/
def cyclicPlanStore : GStore := [[("inputStage", GVal.gRef 0)]]

/-! ## Claim-side definitions

`coveredClaimedCond` is written from the specification/claim wording, for
comparison against the code's `computeCovered`; everything else above is
translated from the source. -/

/-- The projected-field set computed by the code: truthy-flagged fields,
plus the identity field when it is present in the projection with a value
`!= 0`. -/
def coveredProjFields (projection : Val) : List String :=
  let flds := ((tItems projection).filter (fun kv => pyTruthy kv.2)).map Prod.fst
  match dictGet (tItems projection) "_id" with
  | some v => if pyIsZero v then flds else flds ++ ["_id"]
  | none => flds

/-- The `keyPattern` field names of `winningPlan`'s single child, the empty
set when absent. -/
def coveredIndexKeys (wp : Val) : List String :=
  tKeys (tGetD (tGetD wp "inputStage" (Val.vDoc [])) "keyPattern" (Val.vDoc []))

/-- Modelled from the claim wording (spec section 4.2 bullet `covered`): the
projected names are the truthy-flagged fields plus the identity field when
explicitly requested or when not explicitly excluded (`_id: 0`). -/
def claimProjFields (projection : Val) : List String :=
  let flds := ((tItems projection).filter (fun kv => pyTruthy kv.2)).map Prod.fst
  match dictGet (tItems projection) "_id" with
  | some v => if pyIsZero v then flds else flds ++ ["_id"]
  | none => flds ++ ["_id"]

/-- Modelled from the claim wording: `covered` is true iff a projection was
supplied, `winningPlan` has a single child with a non-empty `keyPattern`,
and the claimed projected-field set is a subset of that `keyPattern`'s
field names. -/
def coveredClaimedCond (projection wp : Val) : Bool :=
  (projection != Val.vNull) &&
  (tGetD wp "inputStage" Val.vNull != Val.vNull) &&
  (!(coveredIndexKeys wp).isEmpty) &&
  (claimProjFields projection).all (fun f => (coveredIndexKeys wp).contains f)

/-! ## Concrete inputs used to settle the claims -/

/-- A minimal well-formed explain output (no stats, no plan details). -/
def emptyExplain : Val := Val.vDoc []

/-- The single stage record the analyzer produces for `emptyExplain` with a
`None` projection. -/
def emptyExplainMetrics : StageMetrics :=
  { stage := Val.vStr "UNKNOWN", nReturned := Val.vInt 0,
    totalDocsExamined := Val.vInt 0, totalKeysExamined := Val.vInt 0,
    amplificationRatio := .inf, keyDocRatio := .inf,
    triggersSort := false, covered := false }

/-- C2 input: a truthy projection whose only flag is falsy. -/
def cex2Projection : Val := Val.vDoc [("a", Val.vInt 0)]

/-- C2 input: a winning plan with a truthy `inputStage` that carries no
`keyPattern`. -/
def cex2WinningPlan : Val :=
  Val.vDoc [("stage", Val.vStr "FETCH"),
            ("inputStage", Val.vDoc [("stage", Val.vStr "COLLSCAN")])]

/-- C2 input: the surrounding simple-shape explain output. -/
def cex2Explain : Val :=
  Val.vDoc [("queryPlanner", Val.vDoc [("winningPlan", cex2WinningPlan)])]

/-- The stage record the analyzer produces for `cex2Explain`/`cex2Projection`. -/
def cex2Metrics : StageMetrics :=
  { stage := Val.vStr "FETCH", nReturned := Val.vInt 0,
    totalDocsExamined := Val.vInt 0, totalKeysExamined := Val.vInt 0,
    amplificationRatio := .inf, keyDocRatio := .inf,
    triggersSort := false, covered := true }

/-- C8 witness: a SORT stage three levels down, below the sequence-valued
`shards` link. -/
def sortThreeDeepPlan : Val :=
  Val.vDoc [("stage", Val.vStr "FETCH"),
            ("shards", Val.vArr [
              Val.vDoc [("stage", Val.vStr "SINGLE_SHARD"),
                        ("inputStage", Val.vDoc [
                          ("stage", Val.vStr "SUBPLAN"),
                          ("inputStages", Val.vArr [
                            Val.vDoc [("stage", Val.vStr "SORT")]])])]])]

/-- C4 failing input, left side: an unmatched array element directly before
a matched one. -/
def c4LeftDocs : List PyDict :=
  [[("id", Val.vInt 1),
    ("refs", Val.vArr [Val.vDoc [("k", Val.vInt 6)], Val.vDoc [("k", Val.vInt 5)]])]]

/-- C4 failing input, right side. -/
def c4RightDocs : List PyDict :=
  [[("k", Val.vInt 5), ("v", Val.vStr "x")]]

/-- The claim's own worked example, matched element first. -/
def c4OrderedLeftDocs : List PyDict :=
  [[("id", Val.vInt 1),
    ("refs", Val.vArr [Val.vDoc [("k", Val.vInt 5)], Val.vDoc [("k", Val.vInt 6)]])]]

/-- C5 concrete input, left side. -/
def c5LeftDocs : List PyDict := [[("id", Val.vInt 2), ("uid", Val.vInt 7)]]

/-- C5 concrete input, right side: two matches for `uid = 7`. -/
def c5RightDocs : List PyDict :=
  [[("uid", Val.vInt 7), ("name", Val.vStr "A")],
   [("uid", Val.vInt 7), ("name", Val.vStr "B")]]

/-! ## Theorems -/

theorem except_bind_ok {α β γ : Type} (a : α) (f : α → Except γ β) :
    (Except.ok a >>= f : Except γ β) = f a := rfl

theorem except_bind_err {α β γ : Type} (e : γ) (f : α → Except γ β) :
    (Except.error e >>= f : Except γ β) = Except.error e := rfl

theorem valSize_pos (v : Val) : 0 < valSize v := by
  cases v <;> simp [valSize]

theorem dictGet_valSize {fs : PyDict} {key : String} {v : Val}
    (h : dictGet fs key = some v) : valSize v < valSizeFields fs := by
  induction fs with
  | nil => simp [dictGet] at h
  | cons kv rest ih =>
    obtain ⟨k, w⟩ := kv
    simp only [dictGet] at h
    by_cases hk : k = key
    · simp only [hk, if_pos rfl] at h
      cases h
      simp [valSizeFields]
      omega
    · simp only [if_neg hk] at h
      have := ih h
      simp [valSizeFields]
      omega

theorem mem_valSize {x : Val} {xs : List Val} (h : x ∈ xs) : valSize x < valSizeList xs := by
  induction xs with
  | nil => cases h
  | cons y ys ih =>
    rcases List.mem_cons.mp h with h | h
    · subst h; simp [valSizeList]; omega
    · have := ih h; simp [valSizeList]; omega

theorem orLoop_isSome {g : Val → Option (Except String Bool)} {xs : List Val}
    (h : ∀ x ∈ xs, (g x).isSome) : (orLoop g xs).isSome := by
  induction xs with
  | nil => simp [orLoop]
  | cons y ys ih =>
    simp only [orLoop]
    have hy := h y (List.mem_cons_self y ys)
    cases hg : g y with
    | none => rw [hg] at hy; simp at hy
    | some r =>
      cases r with
      | ok b =>
        cases b
        · exact ih (fun x hx => h x (List.mem_cons_of_mem y hx))
        · simp
      | error e => simp

theorem childLoop_isSome {g : Val → Option (Except String Bool)} {fs : PyDict}
    {ks : List String}
    (h : ∀ w, valSize w < valSizeFields fs → (g w).isSome) :
    (childLoop g fs ks).isSome := by
  induction ks with
  | nil => simp [childLoop]
  | cons k ks ih =>
    simp only [childLoop]
    cases hk : dictGet fs k with
    | none => exact ih
    | some w =>
      have hw : valSize w < valSizeFields fs := dictGet_valSize hk
      cases w with
      | vDoc d =>
        have hd := h (.vDoc d) hw
        cases hg : g (.vDoc d) with
        | none => rw [hg] at hd; simp at hd
        | some r =>
          cases r with
          | ok b => cases b <;> simp [hg, ih]
          | error e => simp [hg]
      | vArr xs =>
        have harr : (orLoop g xs).isSome := by
          apply orLoop_isSome
          intro x hx
          apply h
          have hx2 : valSize x < valSizeList xs := mem_valSize hx
          have hx3 : valSize (Val.vArr xs) < valSizeFields fs := hw
          simp [valSize] at hx3
          omega
        cases hg : orLoop g xs with
        | none => rw [hg] at harr; simp at harr
        | some r =>
          cases r with
          | ok b => cases b <;> simp [hg, ih]
          | error e => simp [hg]
      | vNull => exact ih
      | vBool b => exact ih
      | vInt n => exact ih
      | vStr s => exact ih
      | vErrObj m => exact ih

/-- With a stack budget of at least the size of the (finite, tree-shaped)
input, the traversal completes. -/
theorem searchForSortF_isSome : ∀ (fuel : Nat) (v : Val), valSize v ≤ fuel →
    (searchForSortF fuel v).isSome := by
  intro fuel
  induction fuel with
  | zero =>
    intro v hv
    have := valSize_pos v
    omega
  | succ f ih =>
    intro v hv
    simp only [searchForSortF]
    cases htr : pyTruthy v with
    | false => simp
    | true =>
      simp only [htr, Bool.not_true, Bool.false_eq_true, if_false]
      cases v with
      | vDoc fs =>
        by_cases hst : dictGet fs "stage" = some (Val.vStr "SORT")
        · simp [hst]
        · simp only [hst, if_neg, if_false]
          apply childLoop_isSome
          intro w hw
          apply ih
          have hv2 : valSize (Val.vDoc fs) ≤ f + 1 := hv
          simp [valSize] at hv2
          omega
      | vNull => simp
      | vBool b => simp
      | vInt n => simp
      | vStr s => simp
      | vArr xs => simp
      | vErrObj m => simp


theorem dictGet_some_ne_nil {fs : PyDict} {key : String} {v : Val}
    (h : dictGet fs key = some v) : fs ≠ [] := by
  intro hnil
  subst hnil
  simp [dictGet] at h

theorem hasSortNode_truthy {v : Val} (h : HasSortNode v) : pyTruthy v = true := by
  cases h with
  | here hget => simp [pyTruthy, dictGet_some_ne_nil hget]
  | childDoc hmem hget hsub => simp [pyTruthy, dictGet_some_ne_nil hget]
  | childArr hmem hget hx hsub => simp [pyTruthy, dictGet_some_ne_nil hget]

theorem orLoop_ok_true {g : Val → Option (Except String Bool)} {xs : List Val}
    (h : orLoop g xs = some (.ok true)) : ∃ x ∈ xs, g x = some (.ok true) := by
  induction xs with
  | nil => simp [orLoop] at h
  | cons y ys ih =>
    simp only [orLoop] at h
    cases hg : g y with
    | none => rw [hg] at h; exact absurd h (by simp)
    | some r =>
      cases r with
      | ok b =>
        cases b
        · rw [hg] at h
          obtain ⟨x, hx, hgx⟩ := ih h
          exact ⟨x, List.mem_cons_of_mem y hx, hgx⟩
        · exact ⟨y, List.mem_cons_self y ys, hg⟩
      | error e => rw [hg] at h; exact absurd h (by simp)

theorem orLoop_ok_false {g : Val → Option (Except String Bool)} {xs : List Val}
    (h : orLoop g xs = some (.ok false)) : ∀ x ∈ xs, g x = some (.ok false) := by
  induction xs with
  | nil => simp
  | cons y ys ih =>
    simp only [orLoop] at h
    cases hg : g y with
    | none => rw [hg] at h; exact absurd h (by simp)
    | some r =>
      cases r with
      | ok b =>
        cases b
        · rw [hg] at h
          intro x hx
          rcases List.mem_cons.mp hx with hx | hx
          · subst hx; exact hg
          · exact ih h x hx
        · rw [hg] at h; exact absurd h (by simp)
      | error e => rw [hg] at h; exact absurd h (by simp)

theorem childLoop_ok_true {g : Val → Option (Except String Bool)} {fs : PyDict}
    {ks : List String} (h : childLoop g fs ks = some (.ok true)) :
    ∃ k ∈ ks,
      (∃ d, dictGet fs k = some (.vDoc d) ∧ g (.vDoc d) = some (.ok true)) ∨
      (∃ xs, dictGet fs k = some (.vArr xs) ∧ orLoop g xs = some (.ok true)) := by
  induction ks with
  | nil => simp [childLoop] at h
  | cons k ks ih =>
    simp only [childLoop] at h
    split at h
    · rename_i d hk
      split at h
      · obtain ⟨k2, hk2, hc⟩ := ih h
        exact ⟨k2, List.mem_cons_of_mem k hk2, hc⟩
      · exact ⟨k, List.mem_cons_self k ks, Or.inl ⟨d, hk, h⟩⟩
    · rename_i xs hk
      split at h
      · obtain ⟨k2, hk2, hc⟩ := ih h
        exact ⟨k2, List.mem_cons_of_mem k hk2, hc⟩
      · exact ⟨k, List.mem_cons_self k ks, Or.inr ⟨xs, hk, h⟩⟩
    · obtain ⟨k2, hk2, hc⟩ := ih h
      exact ⟨k2, List.mem_cons_of_mem k hk2, hc⟩

theorem childLoop_ok_false {g : Val → Option (Except String Bool)} {fs : PyDict}
    {ks : List String} (h : childLoop g fs ks = some (.ok false)) :
    ∀ k ∈ ks,
      (∀ d, dictGet fs k = some (.vDoc d) → g (.vDoc d) = some (.ok false)) ∧
      (∀ xs, dictGet fs k = some (.vArr xs) → orLoop g xs = some (.ok false)) := by
  induction ks with
  | nil => simp
  | cons k ks ih =>
    intro k2 hk2
    simp only [childLoop] at h
    split at h
    · rename_i d hk
      split at h
      · rename_i hg
        rcases List.mem_cons.mp hk2 with hk2 | hk2
        · subst hk2
          constructor
          · intro d2 hd2; rw [hd2] at hk; cases hk; exact hg
          · intro xs2 hxs2; rw [hxs2] at hk; cases hk
        · exact ih h k2 hk2
      · rename_i hne
        exact absurd h hne
    · rename_i xs hk
      split at h
      · rename_i hg
        rcases List.mem_cons.mp hk2 with hk2 | hk2
        · subst hk2
          constructor
          · intro d2 hd2; rw [hd2] at hk; cases hk
          · intro xs2 hxs2; rw [hxs2] at hk; cases hk; exact hg
        · exact ih h k2 hk2
      · rename_i hne
        exact absurd h hne
    · rename_i hne1 hne2
      rcases List.mem_cons.mp hk2 with hk2 | hk2
      · subst hk2
        constructor
        · intro d2 hd2; exact (hne1 d2 hd2).elim
        · intro xs2 hxs2; exact (hne2 xs2 hxs2).elim
      · exact ih h k2 hk2

/-- Whenever the traversal completes with a boolean (any stack budget), that
boolean is `true` exactly when a SORT node is reachable. -/
theorem searchForSortF_sound : ∀ (fuel : Nat) (v : Val) (b : Bool),
    searchForSortF fuel v = some (.ok b) → (b = true ↔ HasSortNode v) := by
  intro fuel
  induction fuel with
  | zero => intro v b h; simp [searchForSortF] at h
  | succ f ih =>
    intro v b h
    simp only [searchForSortF] at h
    cases htr : pyTruthy v with
    | false =>
      rw [htr] at h
      simp at h
      subst h
      simp only [Bool.false_eq_true, false_iff]
      intro hs
      rw [hasSortNode_truthy hs] at htr
      cases htr
    | true =>
      rw [htr] at h
      simp only [Bool.not_true, Bool.false_eq_true, if_false] at h
      cases v with
      | vDoc fs =>
        dsimp only at h
        by_cases hst : dictGet fs "stage" = some (Val.vStr "SORT")
        · rw [if_pos hst] at h
          cases h
          simp only [true_iff]
          exact HasSortNode.here hst
        · rw [if_neg hst] at h
          cases b
          · simp only [Bool.false_eq_true, false_iff]
            intro hs
            cases hs with
            | here hget => exact hst hget
            | childDoc hmem hget hsub =>
              have := (childLoop_ok_false h _ hmem).1 _ hget
              exact absurd ((ih _ _ this).mpr hsub) (by simp)
            | childArr hmem hget hx hsub =>
              have horl := (childLoop_ok_false h _ hmem).2 _ hget
              have := orLoop_ok_false horl _ hx
              exact absurd ((ih _ _ this).mpr hsub) (by simp)
          · simp only [true_iff]
            obtain ⟨k, hk, hc⟩ := childLoop_ok_true h
            rcases hc with ⟨d, hget, hg⟩ | ⟨xs, hget, horl⟩
            · exact HasSortNode.childDoc hk hget ((ih _ _ hg).mp rfl)
            · obtain ⟨x, hx, hgx⟩ := orLoop_ok_true horl
              exact HasSortNode.childArr hk hget hx ((ih _ _ hgx).mp rfl)
      | vNull => simp [pyTruthy] at htr
      | vBool bb => cases h
      | vInt n => cases h
      | vStr s => cases h
      | vArr xs => cases h
      | vErrObj m => cases h


theorem pyRemoveFirst_length_le (xs : List Val) (x : Val) :
    (pyRemoveFirst xs x).length ≤ xs.length := by
  induction xs with
  | nil => simp [pyRemoveFirst]
  | cons y ys ih =>
    simp only [pyRemoveFirst]
    split
    · simp
    · simp
      omega


theorem classifyFields_eq (q : PyDict) :
    classifyFields q = ((q.filter (fun kv => !isRangeValue kv.2)).map Prod.fst,
                        (q.filter (fun kv => isRangeValue kv.2)).map Prod.fst) := by
  induction q with
  | nil => rfl
  | cons kv rest ih =>
    obtain ⟨k, v⟩ := kv
    simp only [classifyFields, List.filter_cons]
    cases hr : isRangeValue v <;> simp [hr, ih]

/-- C6: `normalize_query_shape` classifies a field as a range field iff its
value is a sub-mapping containing one of the seven recognized operators
(`isRangeValue`); every field lands in exactly one bucket in declaration
order (the two buckets are the order-preserving filters of the input), and
`shapeKey` is the literal `EQ[...]|RANGE[...]` rendering of the two comma
joined bucket lists.  A scalar-only filter puts every field in `eqFields`,
and `{age: {$gte: 18}}` yields `"EQ[]|RANGE[age]"`. -/
theorem normalize_query_shape_spec (q : PyDict) :
    (normalizeQueryShape q).eqFields = (q.filter (fun kv => !isRangeValue kv.2)).map Prod.fst ∧
    (normalizeQueryShape q).rangeFields = (q.filter (fun kv => isRangeValue kv.2)).map Prod.fst ∧
    (normalizeQueryShape q).shapeKey =
      "EQ[" ++ String.intercalate "," (normalizeQueryShape q).eqFields ++ "]|RANGE[" ++
        String.intercalate "," (normalizeQueryShape q).rangeFields ++ "]" ∧
    normalizeQueryShape [("name", Val.vStr "x"), ("age", Val.vInt 5)] =
      { shapeKey := "EQ[name,age]|RANGE[]", eqFields := ["name", "age"], rangeFields := [] } ∧
    normalizeQueryShape [("age", Val.vDoc [("$gte", Val.vInt 18)])] =
      { shapeKey := "EQ[]|RANGE[age]", eqFields := [], rangeFields := ["age"] } := by
  refine ⟨?_, ?_, rfl, by decide, by decide⟩
  · simp [normalizeQueryShape, classifyFields_eq]
  · simp [normalizeQueryShape, classifyFields_eq]

/-- C10: the public `query_shape` operation unwraps a top-level `filter`
key before normalizing — the shape is computed over that key's value when
present and over the whole mapping otherwise, so `{"filter": {a: 1}}` and
`{a: 1}` yield the same result — and a non-mapping input produces an error
result instead of an exception. -/
theorem query_shape_unwraps_filter :
    (∀ (fs : PyDict) (f : Val), dictGet fs "filter" = some f →
      queryShapeFn (Val.vDoc fs) = normalizeVal f) ∧
    (∀ fs : PyDict, dictGet fs "filter" = none →
      queryShapeFn (Val.vDoc fs) = normalizeVal (Val.vDoc fs)) ∧
    (∀ (fs g : PyDict), dictGet fs "filter" = some (Val.vDoc g) →
      dictGet g "filter" = none →
      queryShapeFn (Val.vDoc fs) = queryShapeFn (Val.vDoc g)) ∧
    (∀ v : Val, (∀ fs : PyDict, v ≠ Val.vDoc fs) → ∃ e, queryShapeFn v = .error e) ∧
    queryShapeFn (Val.vDoc [("filter", Val.vDoc [("a", Val.vInt 1)])]) =
      queryShapeFn (Val.vDoc [("a", Val.vInt 1)]) ∧
    queryShapeFn (Val.vInt 3) = .error "AttributeError: object has no attribute get" := by
  refine ⟨?_, ?_, ?_, ?_, by decide, rfl⟩
  · intro fs f h
    simp [queryShapeFn, h]
  · intro fs h
    simp [queryShapeFn, h]
  · intro fs g h1 h2
    simp [queryShapeFn, h1, h2]
  · intro v hv
    cases v with
    | vDoc fs => exact absurd rfl (hv fs)
    | vNull => exact ⟨_, rfl⟩
    | vBool b => exact ⟨_, rfl⟩
    | vInt n => exact ⟨_, rfl⟩
    | vStr s => exact ⟨_, rfl⟩
    | vArr xs => exact ⟨_, rfl⟩
    | vErrObj m => exact ⟨_, rfl⟩

/-- C10 witness: the unwrap equation discharged at a concrete input. -/
theorem query_shape_unwraps_filter_witness :
    queryShapeFn (Val.vDoc [("filter", Val.vDoc [("b", Val.vInt 2)])]) =
      normalizeVal (Val.vDoc [("b", Val.vInt 2)]) :=
  query_shape_unwraps_filter.1 [("filter", Val.vDoc [("b", Val.vInt 2)])]
    (Val.vDoc [("b", Val.vInt 2)]) rfl

theorem stageHealth_ok_inv {p wp es st : Val} {m : StageMetrics}
    (h : stageHealth p wp es st = .ok m) :
    m.stage = st ∧
    pyGetD es "nReturned" (Val.vInt 0) = .ok m.nReturned ∧
    pyGetD es "totalDocsExamined" (Val.vInt 0) = .ok m.totalDocsExamined ∧
    pyGetD es "totalKeysExamined" (Val.vInt 0) = .ok m.totalKeysExamined ∧
    pyRatio m.totalDocsExamined m.nReturned = .ok m.amplificationRatio ∧
    pyRatio m.totalKeysExamined m.totalDocsExamined = .ok m.keyDocRatio ∧
    computeCovered p wp = .ok m.covered ∧
    runSearchForSort wp = .ok m.triggersSort := by
  simp only [stageHealth] at h
  cases hn : pyGetD es "nReturned" (Val.vInt 0) with
  | error e => rw [hn, except_bind_err] at h; cases h
  | ok n =>
  rw [hn, except_bind_ok] at h
  cases hd : pyGetD es "totalDocsExamined" (Val.vInt 0) with
  | error e => rw [hd, except_bind_err] at h; cases h
  | ok d =>
  rw [hd, except_bind_ok] at h
  cases hk : pyGetD es "totalKeysExamined" (Val.vInt 0) with
  | error e => rw [hk, except_bind_err] at h; cases h
  | ok k =>
  rw [hk, except_bind_ok] at h
  cases hamp : pyRatio d n with
  | error e => rw [hamp, except_bind_err] at h; cases h
  | ok amp =>
  rw [hamp, except_bind_ok] at h
  cases hkdr : pyRatio k d with
  | error e => rw [hkdr, except_bind_err] at h; cases h
  | ok kdr =>
  rw [hkdr, except_bind_ok] at h
  cases hcov : computeCovered p wp with
  | error e => rw [hcov, except_bind_err] at h; cases h
  | ok cov =>
  rw [hcov, except_bind_ok] at h
  cases hts : runSearchForSort wp with
  | error e => rw [hts, except_bind_err] at h; cases h
  | ok ts =>
  rw [hts, except_bind_ok] at h
  cases h
  refine ⟨rfl, ?_, ?_, ?_, ?_, ?_, ?_, ?_⟩ <;>
    simp [hn, hd, hk, hamp, hkdr, hcov, hts]

theorem stageStep_ok_inv {p stv : Val} {m : StageMetrics}
    (h : stageStep p stv = .ok m) :
    ∃ wp es st, stageHealth p wp es st = .ok m := by
  simp only [stageStep] at h
  cases hi : pyItems stv with
  | error e => rw [hi, except_bind_err] at h; cases h
  | ok items =>
  rw [hi, except_bind_ok] at h
  cases items with
  | nil => cases h
  | cons kv rest =>
  obtain ⟨stageName, stageDetail⟩ := kv
  dsimp only at h
  cases hqp : pyGetD stageDetail "queryPlanner" (Val.vDoc []) with
  | error e => rw [hqp, except_bind_err] at h; cases h
  | ok qp =>
  rw [hqp, except_bind_ok] at h
  cases hwp : pyGetD qp "winningPlan" (Val.vDoc []) with
  | error e => rw [hwp, except_bind_err] at h; cases h
  | ok wp =>
  rw [hwp, except_bind_ok] at h
  cases hes : pyGetD stageDetail "executionStats" (Val.vDoc []) with
  | error e => rw [hes, except_bind_err] at h; cases h
  | ok es =>
  rw [hes, except_bind_ok] at h
  cases hst : pyGetD wp "stage" (Val.vStr (stripDollar stageName).toUpper) with
  | error e => rw [hst, except_bind_err] at h; cases h
  | ok st =>
  rw [hst, except_bind_ok] at h
  exact ⟨wp, es, st, h⟩

theorem stagesLoop_mem {p : Val} {sts : List Val} {ms : List StageMetrics}
    (h : stagesLoop p sts = .ok ms) :
    ∀ m ∈ ms, ∃ wp es st, stageHealth p wp es st = .ok m := by
  induction sts generalizing ms with
  | nil =>
    simp only [stagesLoop] at h
    cases h
    simp
  | cons stv rest ih =>
    simp only [stagesLoop] at h
    cases hs : stageStep p stv with
    | error e => rw [hs, except_bind_err] at h; cases h
    | ok m0 =>
    rw [hs, except_bind_ok] at h
    cases hr : stagesLoop p rest with
    | error e => rw [hr, except_bind_err] at h; cases h
    | ok ms0 =>
    rw [hr, except_bind_ok] at h
    cases h
    intro m hm
    rcases List.mem_cons.mp hm with hm | hm
    · subst hm; exact stageStep_ok_inv hs
    · exact ih hr m hm

/-- Every record the analyzer emits comes from one `stageHealth` run. -/
theorem analyze_mem_stageHealth {e p : Val} {ms : List StageMetrics}
    (h : analyzeExplainMetrics e p = .ok ms) :
    ∀ m ∈ ms, ∃ wp es st, stageHealth p wp es st = .ok m := by
  simp only [analyzeExplainMetrics] at h
  cases hc : pyContains e "stages" with
  | error msg => rw [hc, except_bind_err] at h; cases h
  | ok hasStages =>
  rw [hc, except_bind_ok] at h
  cases hasStages with
  | false =>
    simp only [Bool.not_false, if_true] at h
    cases hqp : pyGetD e "queryPlanner" (Val.vDoc []) with
    | error msg => rw [hqp, except_bind_err] at h; cases h
    | ok qp =>
    rw [hqp, except_bind_ok] at h
    cases hwp : pyGetD qp "winningPlan" (Val.vDoc []) with
    | error msg => rw [hwp, except_bind_err] at h; cases h
    | ok wp =>
    rw [hwp, except_bind_ok] at h
    cases hes : pyGetD e "executionStats" (Val.vDoc []) with
    | error msg => rw [hes, except_bind_err] at h; cases h
    | ok es =>
    rw [hes, except_bind_ok] at h
    cases hst : pyGetD wp "stage" (Val.vStr "UNKNOWN") with
    | error msg => rw [hst, except_bind_err] at h; cases h
    | ok st =>
    rw [hst, except_bind_ok] at h
    cases hm : stageHealth p wp es st with
    | error msg => rw [hm, except_bind_err] at h; cases h
    | ok m0 =>
    rw [hm, except_bind_ok] at h
    cases h
    intro m hmem
    rcases List.mem_singleton.mp hmem with rfl
    exact ⟨wp, es, st, hm⟩
  | true =>
    simp only [Bool.not_true, Bool.false_eq_true, if_false] at h
    cases hi : pyIndex e "stages" with
    | error msg => rw [hi, except_bind_err] at h; cases h
    | ok stages =>
    rw [hi, except_bind_ok] at h
    cases stages with
    | vArr sts => exact stagesLoop_mem h
    | vDoc fs =>
      by_cases hfs : fs.isEmpty <;> simp [hfs] at h
      cases h
      simp
    | vStr s =>
      by_cases hs : s.isEmpty <;> simp [hs] at h
      cases h
      simp
    | vNull => cases h
    | vBool b => cases h
    | vInt n => cases h
    | vErrObj msg => cases h

/-- C7: for every stage the analyzer emits, `amplificationRatio` is
`totalDocsExamined / nReturned` when `nReturned` is a nonzero integer and
positive infinity when it is zero, and `keyDocRatio` is
`totalKeysExamined / totalDocsExamined` when `totalDocsExamined` is nonzero
and positive infinity when it is zero; counters missing from
`executionStats` default to 0 before this computation. -/
theorem analyze_ratios_spec :
    (∀ (e p : Val) (ms : List StageMetrics), analyzeExplainMetrics e p = .ok ms →
      ∀ m ∈ ms, ∀ n dd kk : Int,
        m.nReturned = .vInt n → m.totalDocsExamined = .vInt dd →
        m.totalKeysExamined = .vInt kk →
        ((n = 0 → m.amplificationRatio = .inf) ∧
         (n ≠ 0 → m.amplificationRatio = .fin ((dd : ℚ) / (n : ℚ))) ∧
         (dd = 0 → m.keyDocRatio = .inf) ∧
         (dd ≠ 0 → m.keyDocRatio = .fin ((kk : ℚ) / (dd : ℚ))))) ∧
    (∀ (p wp st : Val) (esf : PyDict) (m : StageMetrics),
      stageHealth p wp (Val.vDoc esf) st = .ok m →
        (dictGet esf "nReturned" = none → m.nReturned = .vInt 0) ∧
        (dictGet esf "totalDocsExamined" = none → m.totalDocsExamined = .vInt 0) ∧
        (dictGet esf "totalKeysExamined" = none → m.totalKeysExamined = .vInt 0)) := by
  constructor
  · intro e p ms h m hm n dd kk hn hd hk
    obtain ⟨wp, es, st, hsh⟩ := analyze_mem_stageHealth h m hm
    obtain ⟨-, -, -, -, hamp, hkdr, -, -⟩ := stageHealth_ok_inv hsh
    rw [hn, hd] at hamp
    rw [hk, hd] at hkdr
    refine ⟨?_, ?_, ?_, ?_⟩
    · intro h0
      subst h0
      simp [pyRatio, pyTruthy] at hamp
      exact hamp.symm
    · intro h0
      have ht : ((n : Int) != 0) = true := by simpa using h0
      simp [pyRatio, pyTruthy, ht, pyNum, except_bind_ok] at hamp
      exact hamp.symm
    · intro h0
      subst h0
      simp [pyRatio, pyTruthy] at hkdr
      exact hkdr.symm
    · intro h0
      have ht : ((dd : Int) != 0) = true := by simpa using h0
      simp [pyRatio, pyTruthy, ht, pyNum, except_bind_ok] at hkdr
      exact hkdr.symm
  · intro p wp st esf m hsh
    obtain ⟨-, hn, hd, hk, -, -, -, -⟩ := stageHealth_ok_inv hsh
    refine ⟨?_, ?_, ?_⟩
    · intro h0
      simp [pyGetD, h0] at hn
      exact hn.symm
    · intro h0
      simp [pyGetD, h0] at hd
      exact hd.symm
    · intro h0
      simp [pyGetD, h0] at hk
      exact hk.symm

/-- C7 witness: on an explain output with no `executionStats` at all, the
defaulted counters are 0 and both ratios are positive infinity. -/
theorem analyze_ratios_spec_witness :
    analyzeExplainMetrics emptyExplain Val.vNull = .ok [emptyExplainMetrics] ∧
    emptyExplainMetrics.amplificationRatio = RatioVal.inf ∧
    emptyExplainMetrics.keyDocRatio = RatioVal.inf := by
  refine ⟨by decide, ?_, ?_⟩
  · exact (analyze_ratios_spec.1 emptyExplain Val.vNull [emptyExplainMetrics] (by decide)
      emptyExplainMetrics (by simp) 0 0 0 (by decide) (by decide) (by decide)).1 rfl
  · exact (analyze_ratios_spec.1 emptyExplain Val.vNull [emptyExplainMetrics] (by decide)
      emptyExplainMetrics (by simp) 0 0 0 (by decide) (by decide) (by decide)).2.2.1 rfl

theorem nestedLoopF_succ (rn qf : String) (idx : RIndex) (fuel i : Nat)
    (vals : List Val) (copied : List PyDict) :
    nestedLoopF rn qf idx (fuel + 1) i vals copied =
      if h : i < vals.length then
        match vals.get ⟨i, h⟩ with
        | Val.vDoc item =>
          match indexLookup idx ((dictGet item qf).getD Val.vNull) with
          | some bucket =>
            nestedLoopF rn qf idx fuel (i + 1) vals
              (copied ++ fanOutLoop rn item bucket)
          | none =>
            nestedLoopF rn qf idx fuel (i + 1)
              (pyRemoveFirst vals (Val.vDoc item)) copied
        | _ => nestedLoopF rn qf idx fuel (i + 1) vals copied
      else (vals, copied) := rfl

theorem nestedLoopF_fuel_irrelevant (rn qf : String) (idx : RIndex) :
    ∀ (fuel i : Nat) (vals : List Val) (copied : List PyDict),
      vals.length ≤ i + fuel →
      nestedLoopF rn qf idx fuel i vals copied =
        nestedLoopF rn qf idx (fuel + 1) i vals copied := by
  intro fuel
  induction fuel with
  | zero =>
    intro i vals copied hlen
    rw [nestedLoopF_succ]
    rw [dif_neg (by omega)]
    rfl
  | succ fuel ih =>
    intro i vals copied hlen
    rw [nestedLoopF_succ, nestedLoopF_succ]
    by_cases h : i < vals.length
    · rw [dif_pos h, dif_pos h]
      split
      · rename_i item hv
        split
        · exact ih (i + 1) vals _ (by omega)
        · rename_i hb
          apply ih
          have := pyRemoveFirst_length_le vals (Val.vDoc item)
          omega
      · exact ih (i + 1) vals copied (by omega)
    · rw [dif_neg h, dif_neg h]

theorem pyGetD_ok_inv {v : Val} {k : String} {d w : Val} (h : pyGetD v k d = .ok w) :
    ∃ fs, v = .vDoc fs ∧ w = (dictGet fs k).getD d := by
  cases v with
  | vDoc fs =>
    simp only [pyGetD, Except.ok.injEq] at h
    exact ⟨fs, rfl, h.symm⟩
  | vNull => simp [pyGetD] at h
  | vBool b => simp [pyGetD] at h
  | vInt n => simp [pyGetD] at h
  | vStr s => simp [pyGetD] at h
  | vArr xs => simp [pyGetD] at h
  | vErrObj m => simp [pyGetD] at h

theorem pyKeys_ok_inv {v : Val} {ks : List String} (h : pyKeys v = .ok ks) :
    ∃ fs, v = .vDoc fs ∧ ks = fs.map Prod.fst := by
  cases v with
  | vDoc fs =>
    simp only [pyKeys, Except.ok.injEq] at h
    exact ⟨fs, rfl, h.symm⟩
  | vNull => simp [pyKeys] at h
  | vBool b => simp [pyKeys] at h
  | vInt n => simp [pyKeys] at h
  | vStr s => simp [pyKeys] at h
  | vArr xs => simp [pyKeys] at h
  | vErrObj m => simp [pyKeys] at h

theorem pyItems_ok_inv {v : Val} {fs : PyDict} (h : pyItems v = .ok fs) :
    v = .vDoc fs := by
  cases v with
  | vDoc gs =>
    simp only [pyItems, Except.ok.injEq] at h
    rw [h]
  | vNull => simp [pyItems] at h
  | vBool b => simp [pyItems] at h
  | vInt n => simp [pyItems] at h
  | vStr s => simp [pyItems] at h
  | vArr xs => simp [pyItems] at h
  | vErrObj m => simp [pyItems] at h

/-- C2 (amended): whenever the covered computation completes, the flag is
true iff the projection is truthy, `winningPlan.get("inputStage")` is
truthy, and the code's projected-field set (truthy flags, plus `_id` when
present with a value `!= 0`) is contained in the `inputStage.keyPattern`
field names (the empty set when `keyPattern` is absent — a non-empty
`keyPattern` is NOT required). -/
theorem covered_amended (projection wp : Val) (c : Bool)
    (h : computeCovered projection wp = .ok c) :
    c = true ↔
      (pyTruthy projection = true ∧
       pyTruthy (tGetD wp "inputStage" Val.vNull) = true ∧
       ∀ f ∈ coveredProjFields projection, f ∈ coveredIndexKeys wp) := by
  simp only [computeCovered] at h
  cases hp : pyGetD wp "inputStage" Val.vNull with
  | error e => rw [hp, except_bind_err] at h; cases h
  | ok probe =>
  rw [hp, except_bind_ok] at h
  obtain ⟨wpf, rfl, hprobe⟩ := pyGetD_ok_inv hp
  have hprobe2 : tGetD (Val.vDoc wpf) "inputStage" Val.vNull = probe := by
    rw [hprobe]; rfl
  by_cases hcond : (pyTruthy projection && pyTruthy probe) = true
  · rw [if_pos hcond] at h
    cases hi : pyGetD (Val.vDoc wpf) "inputStage" (Val.vDoc []) with
    | error e => rw [hi, except_bind_err] at h; cases h
    | ok isv =>
    rw [hi, except_bind_ok] at h
    cases hk : pyGetD isv "keyPattern" (Val.vDoc []) with
    | error e => rw [hk, except_bind_err] at h; cases h
    | ok kpv =>
    rw [hk, except_bind_ok] at h
    cases hkeys : pyKeys kpv with
    | error e => rw [hkeys, except_bind_err] at h; cases h
    | ok indexKeys =>
    rw [hkeys, except_bind_ok] at h
    cases hitems : pyItems projection with
    | error e => rw [hitems, except_bind_err] at h; cases h
    | ok pjf =>
    rw [hitems, except_bind_ok] at h
    have hproj : projection = Val.vDoc pjf := pyItems_ok_inv hitems
    obtain ⟨isf, hisv, hisval⟩ := pyGetD_ok_inv hi
    obtain ⟨kpf, hkpv, hkeysval⟩ := pyKeys_ok_inv hkeys
    have hikeys : coveredIndexKeys (Val.vDoc wpf) = indexKeys := by
      obtain ⟨isf2, hisv2, hkpval⟩ := pyGetD_ok_inv hk
      simp only [coveredIndexKeys, tGetD]
      have : (dictGet wpf "inputStage").getD (Val.vDoc []) = isv := by
        simp only [pyGetD, Except.ok.injEq] at hi
        exact hi
      rw [this, hisv2]
      simp only [tGetD]
      rw [← hkpval, hkpv, hkeysval]
      rfl
    have hpflds : coveredProjFields projection =
        (match dictGet pjf "_id" with
         | some v => if pyIsZero v then ((pjf.filter (fun kv => pyTruthy kv.2)).map Prod.fst)
                     else ((pjf.filter (fun kv => pyTruthy kv.2)).map Prod.fst) ++ ["_id"]
         | none => (pjf.filter (fun kv => pyTruthy kv.2)).map Prod.fst) := by
      rw [hproj]
      rfl
    rw [Bool.and_eq_true] at hcond
    obtain ⟨hc1, hc2⟩ := hcond
    cases h
    rw [← hprobe2] at hc2
    simp only [hc1, hc2, true_and]
    rw [hikeys, hpflds]
    constructor
    · intro hall f hf
      have := List.all_eq_true.mp hall f hf
      simpa using this
    · intro hall
      apply List.all_eq_true.mpr
      intro f hf
      simpa using hall f hf
  · rw [if_neg hcond] at h
    cases h
    simp only [Bool.false_eq_true, false_iff]
    intro ⟨hc1, hc2, _⟩
    rw [← hprobe2] at hcond
    simp [hc1, hc2] at hcond

/-- C2 counterexample: on a simple-shape explain whose `inputStage` has no
`keyPattern` and a truthy projection with only falsy flags and no `_id`
entry, the analyzer reports `covered = true`, while the claimed condition
(non-empty `keyPattern`, `_id` included unless explicitly excluded) is
false. -/
theorem covered_claim_counterexample :
    analyzeExplainMetrics cex2Explain cex2Projection = .ok [cex2Metrics] ∧
    cex2Metrics.covered = true ∧
    coveredClaimedCond cex2Projection cex2WinningPlan = false := by
  refine ⟨by decide, rfl, by decide⟩

/-- C2 witness: the amended characterization discharged on the
counterexample input (whose covered flag is true). -/
theorem covered_amended_witness :
    pyTruthy cex2Projection = true ∧
    pyTruthy (tGetD cex2WinningPlan "inputStage" Val.vNull) = true ∧
    ∀ f ∈ coveredProjFields cex2Projection, f ∈ coveredIndexKeys cex2WinningPlan :=
  (covered_amended cex2Projection cex2WinningPlan true (by decide)).mp rfl

/-- C1 counterexample: with a successful explain and a failed index-list
collaborator (an `ErrorResponse` value), `optimize_find_query` returns a
bundle that mixes the successful explain/analysis/stats fields with the
embedded failure value — not a single error result. -/
theorem advise_partial_bundle_counterexample :
    optimizeFindQuery emptyExplain (Val.vErrObj "boom") (Val.vArr []) (Val.vArr [])
      Val.vNull =
      .bundle { explain := emptyExplain, analysis := [emptyExplainMetrics],
                indexes := Val.vErrObj "boom", indexes_stats := Val.vArr [],
                collections_stats := Val.vArr [] } := by decide

/-- C1 (amended): an explain-collaborator failure (the analyzer raises a
`TypeError` on the `ErrorResponse` value) or any other analyzer exception
aborts the operation with a single error result; failures of the
index-list, index-stats and collection-stats collaborators do not abort –
their error values are embedded verbatim in the returned bundle, for all
three advise operations. -/
theorem advise_failure_policy (e idx ist cst p : Val) :
    (∀ msg, analyzeExplainMetrics e p = .error msg →
      optimizeFindQuery e idx ist cst p = .errResp msg) ∧
    (∀ ms, analyzeExplainMetrics e p = .ok ms →
      optimizeFindQuery e idx ist cst p = .bundle ⟨e, ms, idx, ist, cst⟩) ∧
    (∀ msg2, optimizeFindQuery (Val.vErrObj msg2) idx ist cst p =
      .errResp "TypeError: argument is not iterable") ∧
    (∀ msg, analyzeExplainMetrics e Val.vNull = .error msg →
      optimizeCountQuery e idx ist cst = .errResp msg ∧
      optimizeAggregateQuery e idx ist cst = .errResp msg) ∧
    (∀ ms, analyzeExplainMetrics e Val.vNull = .ok ms →
      optimizeCountQuery e idx ist cst = .bundle ⟨e, ms, idx, ist, cst⟩ ∧
      optimizeAggregateQuery e idx ist cst = .bundle ⟨e, ms, idx, ist, cst⟩) := by
  refine ⟨?_, ?_, ?_, ?_, ?_⟩
  · intro msg hmsg
    simp [optimizeFindQuery, hmsg]
  · intro ms hms
    simp [optimizeFindQuery, hms]
  · intro msg2
    rfl
  · intro msg hmsg
    constructor <;>
      simp [optimizeCountQuery, optimizeAggregateQuery, optimizeFindQuery, hmsg]
  · intro ms hms
    constructor <;>
      simp [optimizeCountQuery, optimizeAggregateQuery, optimizeFindQuery, hms]

/-- C1 witness: the bundle equation discharged on a concrete run in which
all three stats collaborators failed. -/
theorem advise_failure_policy_witness :
    optimizeFindQuery emptyExplain (Val.vErrObj "x") (Val.vErrObj "y")
      (Val.vErrObj "z") Val.vNull =
      .bundle ⟨emptyExplain, [emptyExplainMetrics], Val.vErrObj "x",
               Val.vErrObj "y", Val.vErrObj "z"⟩ :=
  (advise_failure_policy emptyExplain (Val.vErrObj "x") (Val.vErrObj "y")
    (Val.vErrObj "z") Val.vNull).2.1 [emptyExplainMetrics] (by decide)

/-- C8: whenever the `search_for_sort` traversal completes with a boolean —
under any stack budget, and in particular as run by the analyzer — that
boolean is true iff a node whose `stage` is `"SORT"` is reachable from the
winning plan through the five child links (single- and sequence-valued), at
any nesting depth; the analyzer's stored `triggersSort` is exactly that
value. -/
theorem triggers_sort_spec :
    (∀ (fuel : Nat) (v : Val) (b : Bool), searchForSortF fuel v = some (.ok b) →
      (b = true ↔ HasSortNode v)) ∧
    (∀ (v : Val) (b : Bool), runSearchForSort v = .ok b → (b = true ↔ HasSortNode v)) ∧
    (∀ (p wp es st : Val) (m : StageMetrics), stageHealth p wp es st = .ok m →
      (m.triggersSort = true ↔ HasSortNode wp)) := by
  have hrun : ∀ (v : Val) (b : Bool), runSearchForSort v = .ok b →
      (b = true ↔ HasSortNode v) := by
    intro v b h
    simp only [runSearchForSort] at h
    cases hs : searchForSortF (valSize v) v with
    | none => rw [hs] at h; cases h
    | some r =>
      rw [hs] at h
      cases r with
      | ok b2 =>
        cases h
        exact searchForSortF_sound (valSize v) v b hs
      | error e2 => cases h
  refine ⟨searchForSortF_sound, hrun, ?_⟩
  intro p wp es st m hm
  obtain ⟨-, -, -, -, -, -, -, hts⟩ := stageHealth_ok_inv hm
  exact hrun wp m.triggersSort hts

/-- C8 witness: the SORT stage three levels beneath a sequence-valued child
link is found, and the reachability predicate holds there by applying the
theorem. -/
theorem triggers_sort_spec_witness :
    runSearchForSort sortThreeDeepPlan = .ok true ∧ HasSortNode sortThreeDeepPlan :=
  ⟨by decide, (triggers_sort_spec.2.1 sortThreeDeepPlan true (by decide)).mp rfl⟩

/-- C3 counterexample: on the cyclic plan `d = {}; d["inputStage"] = d` the
traversal never completes, whatever the stack budget — there is no
visited-node or depth guard in the code. -/
theorem search_for_sort_diverges_on_cycle :
    searchGraphDiverges cyclicPlanStore (GVal.gRef 0) := by
  intro fuel
  induction fuel with
  | zero => rfl
  | succ f ih =>
    simp [searchGraph, gTruthy, cyclicPlanStore, gDictGet, sortChildKeys,
      gChildLoop, orLoop, List.getD]
    rw [show searchGraph [[("inputStage", GVal.gRef 0)]] f (GVal.gRef 0) = none from ih]

/-- C3 (amended): the traversal is plain recursion without any visited-node
or depth guard; on finite tree-shaped input it always completes within a
stack budget equal to the input's size (while on a cyclic object graph it
never completes, `search_for_sort_diverges_on_cycle`). -/
theorem search_for_sort_terminates_on_trees (v : Val) :
    (searchForSortF (valSize v) v).isSome = true :=
  searchForSortF_isSome (valSize v) v (Nat.le_refl _)

/-- C4: evaluating the join at the failing input.  The unmatched `{k:6}`
element is removed from `refs` while the loop is iterating over it, which
skips the following matching `{k:5}` element; `copied_values` stays empty
and the left document is dropped, so the join returns no documents — the
specified behavior is to keep the document with `refs = [{k:5,right_v:"x"}]`.
On the spec's own ordered example (matched element first) the code does
produce exactly the specified output. -/
theorem join_nested_skip_bug :
    queryOnDifferentCollections "right" "refs.k" "k" c4LeftDocs c4RightDocs = [] ∧
    queryOnDifferentCollections "right" "refs.k" "k" c4OrderedLeftDocs c4RightDocs =
      [[("id", Val.vInt 1),
        ("refs", Val.vArr [Val.vDoc [("k", Val.vInt 5), ("right_k", Val.vInt 5),
                                     ("right_v", Val.vStr "x")]])]] := by
  constructor <;> decide

theorem dictGet_dictUpdate (d : PyDict) (k : String) (v : Val) (k2 : String) :
    dictGet (dictUpdate d k v) k2 = if k = k2 then some v else dictGet d k2 := by
  induction d with
  | nil =>
    simp only [dictUpdate, dictGet]
  | cons kv rest ih =>
    obtain ⟨ka, va⟩ := kv
    simp only [dictUpdate]
    by_cases h1 : ka = k
    · rw [if_pos h1, h1]
      simp only [dictGet]
      by_cases h2 : k = k2
      · simp [h2]
      · simp [h2]
    · rw [if_neg h1]
      simp only [dictGet]
      by_cases h2 : ka = k2
      · have h3 : ¬k = k2 := by
          rw [← h2]
          exact fun hc => h1 hc.symm
        simp [h2, h3]
      · simp [h2, ih]

theorem dictGet_mem {d : PyDict} {k : String} {v : Val} (h : dictGet d k = some v) :
    (k, v) ∈ d := by
  induction d with
  | nil => simp [dictGet] at h
  | cons kv rest ih =>
    obtain ⟨k1, v1⟩ := kv
    simp only [dictGet] at h
    by_cases h1 : k1 = k
    · rw [if_pos h1] at h
      cases h
      subst h1
      exact List.mem_cons_self _ _
    · rw [if_neg h1] at h
      exact List.mem_cons_of_mem _ (ih h)

theorem dictGet_foldl_update_not_mem (c : PyDict) (k : String) :
    k ∉ c.map Prod.fst →
    ∀ X : PyDict, dictGet (c.foldl (fun acc kv => dictUpdate acc kv.1 kv.2) X) k = dictGet X k := by
  induction c with
  | nil => intro _ X; rfl
  | cons kv rest ih =>
    obtain ⟨k1, v1⟩ := kv
    intro hk X
    simp only [List.map_cons, List.mem_cons] at hk
    push_neg at hk
    obtain ⟨hk1, hkrest⟩ := hk
    simp only [List.foldl_cons]
    rw [ih hkrest, dictGet_dictUpdate, if_neg (fun hc => hk1 hc.symm)]

theorem dictGet_dictMerge_of_mem {a b : PyDict} {k : String} {v : Val}
    (hnodup : (b.map Prod.fst).Nodup) (hmem : (k, v) ∈ b) :
    dictGet (dictMerge a b) k = some v := by
  induction b generalizing a with
  | nil => cases hmem
  | cons kv rest ih =>
    obtain ⟨k1, v1⟩ := kv
    simp only [List.map_cons, List.nodup_cons] at hnodup
    obtain ⟨hk1, hrest⟩ := hnodup
    simp only [dictMerge, List.foldl_cons]
    rcases List.mem_cons.mp hmem with heq | hmem2
    · cases heq
      have hnot : k ∉ rest.map Prod.fst := hk1
      rw [show List.foldl (fun acc kv => dictUpdate acc kv.1 kv.2)
            (dictUpdate a k v) rest =
          dictMerge (dictUpdate a k v) rest from rfl]
      rw [show dictMerge (dictUpdate a k v) rest =
          List.foldl (fun acc kv => dictUpdate acc kv.1 kv.2) (dictUpdate a k v) rest from rfl]
      rw [dictGet_foldl_update_not_mem rest k hnot]
      rw [dictGet_dictUpdate, if_pos rfl]
    · have hk1' : k1 ≠ k := by
        intro hc
        subst hc
        exact hk1 (List.mem_map_of_mem Prod.fst hmem2)
      exact ih hrest hmem2

theorem string_append_left_cancel {s t1 t2 : String} (h : s ++ t1 = s ++ t2) : t1 = t2 := by
  have hd := congrArg String.data h
  rw [String.data_append, String.data_append] at hd
  have h2 := List.append_cancel_left hd
  cases t1; cases t2
  exact congrArg String.mk h2

theorem prefFields_keys_nodup (rn : String) {b : PyDict}
    (h : (b.map Prod.fst).Nodup) : ((prefFields rn b).map Prod.fst).Nodup := by
  have h1 : (prefFields rn b).map Prod.fst =
      ((b.filter (fun kv => kv.1 ≠ "_id")).map Prod.fst).map
        (fun k => rn ++ "_" ++ k) := by
    simp [prefFields, List.map_map]
  rw [h1]
  apply List.Nodup.map
  · intro k1 k2 hk
    have hk2 : (rn ++ "_") ++ k1 = (rn ++ "_") ++ k2 := hk
    exact string_append_left_cancel hk2
  · exact h.sublist ((List.filter_sublist b).map Prod.fst)

theorem prefFields_mem (rn : String) {b : PyDict} {k : String} {v : Val}
    (hk : k ≠ "_id") (hmem : (k, v) ∈ b) : (rn ++ "_" ++ k, v) ∈ prefFields rn b := by
  simp only [prefFields, List.mem_map]
  refine ⟨(k, v), ?_, rfl⟩
  rw [List.mem_filter]
  exact ⟨hmem, by simpa using hk⟩

theorem leftFinal_scalar {rn pf qf lf : String} {idx : RIndex} {left : PyDict}
    (h : isArrValue ((dictGet left pf).getD Val.vNull) = false) :
    leftFinal rn pf qf lf idx left =
      (scalarResult rn lf idx left, some (scalarResult rn lf idx left)) := by
  simp only [leftFinal]
  cases hd : dictGet left pf with
  | none => rfl
  | some w =>
    cases w with
    | vArr xs => rw [hd] at h; simp [isArrValue] at h
    | vNull => rfl
    | vBool b => rfl
    | vInt n => rfl
    | vStr str => rfl
    | vDoc fs => rfl
    | vErrObj m => rfl

/-- C5: when every left document takes the scalar branch (the value at the
parent path is not a list), each is looked up by its full dotted-path value
and retained in the output whether or not it matched, in left-sequence
order; an absent, null or unmatched key leaves the document unchanged; and
merging walks the bucket in order, so a later match overwrites the prefixed
fields of an earlier one — concretely, with two right matches `name:"A"`
then `name:"B"`, the output document carries `right_name = "B"`. -/
theorem join_scalar_branch_spec :
    (∀ (rn lf ff : String) (lefts rights : List PyDict),
      (lefts.all (fun l => !isArrValue ((dictGet l (parentPathOf lf)).getD Val.vNull))) = true →
      queryOnDifferentCollections rn lf ff lefts rights =
        lefts.map (scalarResult rn lf (buildRightIndex ff rights))) ∧
    (∀ (rn lf : String) (idx : RIndex) (l : PyDict),
      dictGet l lf = none → scalarResult rn lf idx l = l) ∧
    (∀ (rn lf : String) (idx : RIndex) (l : PyDict) (key : Val),
      dictGet l lf = some key → key ≠ Val.vNull → indexLookup idx key = none →
      scalarResult rn lf idx l = l) ∧
    (∀ (rn : String) (l a b : PyDict) (k : String) (v : Val),
      k ≠ "_id" → (b.map Prod.fst).Nodup → dictGet b k = some v →
      dictGet (scalarMerge rn l [a, b]) (rn ++ "_" ++ k) = some v) ∧
    queryOnDifferentCollections "right" "uid" "uid" c5LeftDocs c5RightDocs =
      [[("id", Val.vInt 2), ("uid", Val.vInt 7), ("right_uid", Val.vInt 7),
        ("right_name", Val.vStr "B")]] := by
  refine ⟨?_, ?_, ?_, ?_, by decide⟩
  · intro rn lf ff lefts rights h
    simp only [queryOnDifferentCollections]
    induction lefts with
    | nil => rfl
    | cons l rest ih =>
      simp only [List.all_cons, Bool.and_eq_true] at h
      obtain ⟨hl, hrest⟩ := h
      have hl2 : isArrValue ((dictGet l (parentPathOf lf)).getD Val.vNull) = false := by
        simpa using hl
      simp only [List.filterMap_cons, List.map_cons]
      rw [leftFinal_scalar hl2]
      rw [ih hrest]
  · intro rn lf idx l h
    simp [scalarResult, h]
  · intro rn lf idx l key hk hnull hlook
    simp [scalarResult, hk, hnull, hlook]
  · intro rn l a b k v hk hnodup hb
    have hfold : scalarMerge rn l [a, b] =
        dictMerge (dictMerge l (prefFields rn a)) (prefFields rn b) := rfl
    rw [hfold]
    exact dictGet_dictMerge_of_mem (prefFields_keys_nodup rn hnodup)
      (prefFields_mem rn hk (dictGet_mem hb))

/-- C5 witness: the scalar-branch characterization discharged on the
concrete two-match input. -/
theorem join_scalar_branch_spec_witness :
    queryOnDifferentCollections "right" "uid" "uid" c5LeftDocs c5RightDocs =
      c5LeftDocs.map (scalarResult "right" "uid" (buildRightIndex "uid" c5RightDocs)) :=
  join_scalar_branch_spec.1 "right" "uid" "uid" c5LeftDocs c5RightDocs (by decide)

theorem indexLookup_indexAppend (idx : RIndex) (key : Val) (doc : PyDict) (key2 : Val) :
    indexLookup (indexAppend idx key doc) key2 =
      if key2 = key then some ((indexLookup idx key).getD [] ++ [doc])
      else indexLookup idx key2 := by
  induction idx with
  | nil =>
    simp only [indexAppend, indexLookup]
    by_cases h : key2 = key
    · subst h
      simp
    · have h2 : ¬key = key2 := fun hc => h hc.symm
      simp [h, h2]
  | cons kb rest ih =>
    obtain ⟨k, b⟩ := kb
    simp only [indexAppend]
    by_cases hk : k = key
    · subst hk
      simp only [if_pos rfl, indexLookup]
      by_cases h2 : k = key2
      · subst h2
        simp
      · have h3 : ¬key2 = k := fun hc => h2 hc.symm
        simp [h2, h3]
    · rw [if_neg hk]
      simp only [indexLookup]
      by_cases h2 : k = key2
      · subst h2
        rw [if_pos rfl, if_neg (fun hc : k = key => hk hc), if_pos rfl]
      · rw [if_neg h2, if_neg h2, ih]
        by_cases h3 : key2 = key
        · subst h3
          rw [if_pos rfl, if_pos rfl, if_neg h2]
        · rw [if_neg h3, if_neg h3]

theorem buildIndex_fold_lookup (ff : String) :
    ∀ (docs : List PyDict) (idx : RIndex) (key : Val), key ≠ Val.vNull →
      indexLookup (docs.foldl (fun idx doc =>
          match dictGet doc ff with
          | some k => if k = Val.vNull then idx else indexAppend idx k doc
          | none => idx) idx) key =
        (if (docs.filter (fun d => dictGet d ff = some key)).isEmpty
         then indexLookup idx key
         else some ((indexLookup idx key).getD [] ++
           docs.filter (fun d => dictGet d ff = some key))) := by
  intro docs
  induction docs with
  | nil =>
    intro idx key hkey
    simp
  | cons doc docs ih =>
    intro idx key hkey
    simp only [List.foldl_cons, List.filter_cons]
    cases hd : dictGet doc ff with
    | none =>
      have hp : (decide ((none : Option Val) = some key)) = false := by simp
      rw [hp]
      simp only [Bool.false_eq_true, if_false]
      exact ih idx key hkey
    | some k =>
      by_cases hnull : k = Val.vNull
      · subst hnull
        have hp : (decide ((some Val.vNull : Option Val) = some key)) = false := by
          simp only [decide_eq_false_iff_not, Option.some.injEq]
          exact fun hc => hkey hc.symm
        rw [hp]
        simp only [Bool.false_eq_true, if_false, if_pos rfl]
        exact ih idx key hkey
      · by_cases hkk : k = key
        · subst hkk
          have hp : (decide ((some k : Option Val) = some k)) = true := by simp
          rw [hp]
          simp only [if_true]
          rw [if_neg hnull, ih (indexAppend idx k doc) k hkey,
            indexLookup_indexAppend idx k doc k, if_pos rfl]
          by_cases hemp : (docs.filter (fun d => decide (dictGet d ff = some k))).isEmpty
          · rw [if_pos hemp]
            have hnil : docs.filter (fun d => decide (dictGet d ff = some k)) = [] :=
              List.isEmpty_iff.mp hemp
            rw [hnil]
            simp
          · rw [if_neg hemp]
            have hne : ((doc :: docs.filter (fun d => decide (dictGet d ff = some k))).isEmpty) = false := rfl
            rw [hne]
            simp only [Bool.false_eq_true, if_false, Option.getD_some]
            rw [List.append_assoc]
            rfl
        · have hp : (decide ((some k : Option Val) = some key)) = false := by
            simp only [decide_eq_false_iff_not, Option.some.injEq]
            exact hkk
          rw [hp]
          simp only [Bool.false_eq_true, if_false]
          rw [if_neg hnull, ih (indexAppend idx k doc) key hkey,
            indexLookup_indexAppend idx k doc key,
            if_neg (fun hc : key = k => hkk hc.symm)]

/-- Bucket lookup characterization of `buildRightIndex`. -/
theorem indexLookup_buildRightIndex (ff : String) (rights : List PyDict)
    (key : Val) (hkey : key ≠ Val.vNull) :
    indexLookup (buildRightIndex ff rights) key =
      (if (rights.filter (fun d => dictGet d ff = some key)).isEmpty then none
       else some (rights.filter (fun d => dictGet d ff = some key))) := by
  rw [show buildRightIndex ff rights = rights.foldl (fun idx doc =>
      match dictGet doc ff with
      | some k => if k = Val.vNull then idx else indexAppend idx k doc
      | none => idx) [] from rfl]
  rw [buildIndex_fold_lookup ff rights [] key hkey]
  simp [indexLookup]

theorem indexLookup_fold_null (ff : String) :
    ∀ (docs : List PyDict) (idx : RIndex),
      indexLookup idx Val.vNull = none →
      indexLookup (docs.foldl (fun idx doc =>
          match dictGet doc ff with
          | some k => if k = Val.vNull then idx else indexAppend idx k doc
          | none => idx) idx) Val.vNull = none := by
  intro docs
  induction docs with
  | nil => intro idx h; simpa using h
  | cons doc docs ih =>
    intro idx h
    simp only [List.foldl_cons]
    cases hd : dictGet doc ff with
    | none => exact ih idx h
    | some k =>
      by_cases hnull : k = Val.vNull
      · subst hnull
        simp only [if_pos rfl]
        exact ih idx h
      · simp only [if_neg hnull]
        apply ih
        rw [indexLookup_indexAppend idx k doc Val.vNull,
          if_neg (fun hc : Val.vNull = k => hnull hc.symm)]
        exact h

theorem joinStoreLoop_get_preserved (rn pp qf lf : String) (idxA : RIndexA) :
    ∀ (addrs : List Nat) (store : List PyDict) (res : List Nat) (j : Nat),
      (∀ a ∈ addrs, a ≠ j) →
      ((joinStoreLoop rn pp qf lf idxA addrs store res).1)[j]? = store[j]? := by
  intro addrs
  induction addrs with
  | nil => intro store res j _; rfl
  | cons a rest ih =>
    intro store res j h
    simp only [joinStoreLoop]
    rw [ih _ _ j (fun a2 ha2 => h a2 (List.mem_cons_of_mem a ha2))]
    exact List.getElem?_set_ne (h a (List.mem_cons_self a rest))

/-- C9: the reference-level join never changes any right-side document:
after the whole join the right slice of the store equals the input right
sequence.  The join index (built fresh per call) excludes documents whose
foreign field is missing or null, and each bucket is exactly the
right-sequence-ordered filter of the right documents carrying that key. -/
theorem join_frame_spec :
    (∀ (rn lf ff : String) (lefts rights : List PyDict),
      (queryJoinStore rn lf ff lefts rights).rightsAfter = rights) ∧
    (∀ (ff : String) (rights : List PyDict) (key : Val), key ≠ Val.vNull →
      indexLookup (buildRightIndex ff rights) key =
        (if (rights.filter (fun d => dictGet d ff = some key)).isEmpty then none
         else some (rights.filter (fun d => dictGet d ff = some key)))) ∧
    (∀ (ff : String) (rights : List PyDict),
      indexLookup (buildRightIndex ff rights) Val.vNull = none) := by
  refine ⟨?_, indexLookup_buildRightIndex, ?_⟩
  · intro rn lf ff lefts rights
    simp only [queryJoinStore]
    apply List.ext_getElem?
    intro i
    rw [List.getElem?_drop]
    rw [joinStoreLoop_get_preserved rn (parentPathOf lf) (queryFieldOf lf) lf _ _ _ _
      (lefts.length + i) (by
        intro a ha
        have : a < lefts.length := List.mem_range.mp ha
        omega)]
    rw [List.getElem?_append_right (by omega : lefts.length ≤ lefts.length + i)]
    simp
  · intro ff rights
    exact indexLookup_fold_null ff rights [] rfl

/-- C9 witness: the bucket characterization discharged at the concrete
two-document right side keyed by `uid = 7`. -/
theorem join_frame_spec_witness :
    indexLookup (buildRightIndex "uid" c5RightDocs) (Val.vInt 7) = some c5RightDocs :=
  (join_frame_spec.2.1 "uid" c5RightDocs (Val.vInt 7) (by decide)).trans (by decide)
